import Mathlib

/-!
Verification development for the crosspost backend gateway.

The definitions below are a shallow embedding of the TypeScript sources:
  * `src/services/crosspost-service.ts` (dispatcher, capability lookup,
    code-point counting, media classification),
  * the preflight validation module (`PreflightService.validate`,
    `validateBlueskyMedia`, `assertNonEmptySegments`),
  * `src/services/scheduler-service.ts` (`cancel`, `processJob`),
  * `src/store/job-store.ts` (the in-memory store semantics used by the
    scheduler; all store mutations are serialized by the store lock, so the
    embedding treats each operation as atomic),
  * `src/security/crypto.ts` (`encryptJson` / `decryptJson`).

External collaborators (the network, node primitives) appear as explicit
parameters or as definitions whose doc comments start with
`Modelled from the spec:`.
-/

namespace Crosspost

/-- RFC 7807 problem shape thrown by the gateway (`src/problem.ts`).
The embedding keeps the four data fields used by the services. -/
structure HttpProblem where
  type : String
  title : String
  status : Nat
  detail : String
deriving DecidableEq, Repr

/-- Platform names, from `src/types.ts` (`PlatformName`). -/
inductive PlatformName
  | x
  | bluesky
  | mastodon
deriving DecidableEq, Repr

/-- X credentials (`XTargetSchema`): only the fields, validation of field
shapes happens at the transport boundary. -/
structure XTarget where
  authToken : String
deriving DecidableEq, Repr

/-- Bluesky credentials (`BlueskyTargetSchema`). -/
structure BlueskyTarget where
  identifier : String
  pdsUrl : String
  appPassword : String
deriving DecidableEq, Repr

/-- Mastodon credentials (`MastodonTargetSchema`). -/
structure MastodonTarget where
  instanceUrl : String
  accessToken : Option String
deriving DecidableEq, Repr

/-- Requested targets (`TargetsSchema`): each platform is optional. -/
structure Targets where
  x : Option XTarget
  bluesky : Option BlueskyTarget
  mastodon : Option MastodonTarget
deriving DecidableEq, Repr

/-- One media item attached to a segment (`IncomingMedia`); bytes are
modelled as a list of naturals below 256. -/
structure IncomingMedia where
  buffer : List Nat
  fileName : String
  mimeType : String
  altText : Option String
deriving DecidableEq, Repr

/-- One thread segment (`PostSegment`). -/
structure PostSegment where
  text : String
  media : List IncomingMedia
deriving DecidableEq, Repr

/-- A validated publish request (`PublishRequest`). -/
structure PublishRequest where
  targets : Targets
  segments : List PostSegment
  clientRequestId : Option String
deriving DecidableEq, Repr

/-- Per-target delivery record (`TargetDelivery` in `src/types.ts`):
a success carries the external id and optional url, a failure carries the
error message. -/
inductive TargetDelivery
  | success (platform : PlatformName) (id : String) (url : Option String)
  | failure (platform : PlatformName) (error : String)
deriving DecidableEq, Repr

/-- The `ok` discriminant of a delivery record. -/
def TargetDelivery.ok : TargetDelivery → Bool
  | .success _ _ _ => true
  | .failure _ _ => false

/-- The dispatch result (`CrosspostDispatchResult`); `overall` is the
string literal used by the source (`"success"` or `"partial"`), and
`deliveries` preserves the write order x, bluesky, mastodon. -/
structure CrosspostDispatchResult where
  overall : String
  postedAt : String
  clientRequestId : Option String
  deliveries : List (PlatformName × TargetDelivery)
deriving DecidableEq, Repr

/-- Mastodon instance limits (`MastodonInstanceLimits`). -/
structure MastodonInstanceLimits where
  instanceUrl : String
  maxCharacters : Int
  maxMediaAttachments : Int
  charactersReservedPerUrl : Int
  supportedMimeTypes : List String
  imageSizeLimit : Int
  videoSizeLimit : Int
  fetchedAt : String
deriving DecidableEq, Repr

/-! ## Platform capabilities helpers (`platform-capabilities` module) -/

/-- Maximum X characters, from the capabilities module. -/
def X_MAX_CHARACTERS : Nat := 280

/-- Maximum Bluesky characters, from the capabilities module. -/
def BLUESKY_MAX_CHARACTERS : Nat := 300

/-- countCodePoints: the source spreads the JS string into an array of code
points and takes its length; a Lean string is a sequence of code points, so
this is `String.length`. -/
def countCodePoints (text : String) : Nat :=
  text.length

/-- Lowercasing used on the ASCII MIME strings the gateway compares
(JS `toLowerCase`), code point by code point. -/
def lowerAscii (s : String) : String :=
  String.mk (s.toList.map Char.toLower)

/-- Blank test of a segment text: the source trims and compares the length
with zero, which holds exactly when every code point is whitespace. -/
def isBlank (s : String) : Bool :=
  s.toList.all Char.isWhitespace

/-- Code-point prefix test (JS `String.startsWith`). -/
def startsWithStr (pre s : String) : Bool :=
  pre.toList.isPrefixOf s.toList

/-- Classification result of `classifyMediaType`. -/
inductive MediaKind
  | image
  | video
  | other
deriving DecidableEq, Repr

/-- classifyMediaType: lowercases the MIME type and tests the
`image/` and `video/` prefixes. -/
def classifyMediaType (mimeType : String) : MediaKind :=
  let normalized := lowerAscii mimeType
  if startsWithStr "image/" normalized then .image
  else if startsWithStr "video/" normalized then .video
  else .other

/-! ## Capability lookup (`fetchMastodonInstanceLimits`) -/

/-- Parsed shape of the `statuses` block of the instance response; a field
the JS runtime would read as a non-finite or non-number value is modelled
as `none` (the `toInteger` fallback collapses those cases identically). -/
structure StatusesConfig where
  maxCharacters : Option Int
  maxMediaAttachments : Option Int
  charactersReservedPerUrl : Option Int
deriving DecidableEq, Repr

/-- Parsed shape of the `mediaAttachments` block. -/
structure MediaAttachmentsConfig where
  supportedMimeTypes : Option (List String)
  imageSizeLimit : Option Int
  videoSizeLimit : Option Int
deriving DecidableEq, Repr

/-- Parsed shape of the whole instance payload. -/
structure InstancePayload where
  statuses : Option StatusesConfig
  mediaAttachments : Option MediaAttachmentsConfig
deriving DecidableEq, Repr

/-- Outcome of the HTTP GET to `/api/v2/instance`: the network layer either
fails (the fetch rejects with a message) or yields a response with an `ok`
flag, a status code, and the parsed JSON payload. -/
inductive InstanceFetchOutcome
  | networkError (message : Option String)
  | response (ok : Bool) (status : Nat) (payload : InstancePayload)
deriving DecidableEq, Repr

/-- Cache entry of the module-level mastodon limits cache. -/
structure CacheEntry where
  expiresAt : Int
  data : MastodonInstanceLimits
deriving DecidableEq, Repr

/-- TTL of the capability cache (5 minutes in milliseconds). -/
def MASTODON_CACHE_TTL_MS : Int := 5 * 60 * 1000

/-- normalizeMastodonInstanceUrl: strips a single trailing slash. -/
def normalizeMastodonInstanceUrl (instanceUrl : String) : String :=
  if instanceUrl.toList.getLast? == some '/' then String.mk instanceUrl.toList.dropLast
  else instanceUrl

/-- toInteger: a present finite number is floored, anything else falls back;
the embedding keeps the value already floored as an `Int`, so a present
value is returned and an absent one yields the fallback. -/
def toInteger (value : Option Int) (fallback : Int) : Int :=
  match value with
  | some n => n
  | none => fallback

/-- Problem raised when the fetch itself rejects. -/
def mastodonUnreachableProblem (normalized : String) (message : Option String) :
    HttpProblem :=
  { type := "https://api.crosspost.local/problems/mastodon-instance-unreachable"
    title := "Mastodon instance unavailable"
    status := 502
    detail :=
      match message with
      | some m => m
      | none => "Could not reach Mastodon instance at " ++ normalized }

/-- Problem raised on a non-2xx response. -/
def mastodonInstanceErrorProblem (normalized : String) (status : Nat) : HttpProblem :=
  { type := "https://api.crosspost.local/problems/mastodon-instance-error"
    title := "Mastodon instance error"
    status := 502
    detail := "Instance " ++ normalized ++ " returned HTTP " ++ toString status }

/-- Problem raised when the configuration statuses block is missing. -/
def mastodonInvalidProblem (normalized : String) : HttpProblem :=
  { type := "https://api.crosspost.local/problems/mastodon-instance-invalid"
    title := "Mastodon instance configuration missing"
    status := 502
    detail := "Could not read posting limits from " ++ normalized }

/-- Body of the fetch-and-cache path of `fetchMastodonInstanceLimits`:
classifies the network outcome, builds the limits with the `toInteger`
fallbacks, and replaces the cache entry for the normalized key. -/
def processInstanceOutcome
    (cache : List (String × CacheEntry)) (now : Int) (fetchedAtIso : String)
    (normalized : String) (outcome : InstanceFetchOutcome) :
    Except HttpProblem (List (String × CacheEntry) × MastodonInstanceLimits) :=
  match outcome with
  | .networkError message => .error (mastodonUnreachableProblem normalized message)
  | .response ok status payload =>
    if !ok then .error (mastodonInstanceErrorProblem normalized status)
    else
      match payload.statuses with
      | none => .error (mastodonInvalidProblem normalized)
      | some statusConfig =>
        let mediaConfig := payload.mediaAttachments
        let limits : MastodonInstanceLimits :=
          { instanceUrl := normalized
            maxCharacters := toInteger statusConfig.maxCharacters 500
            maxMediaAttachments := toInteger statusConfig.maxMediaAttachments 4
            charactersReservedPerUrl :=
              toInteger statusConfig.charactersReservedPerUrl 23
            supportedMimeTypes :=
              match mediaConfig with
              | some m => match m.supportedMimeTypes with
                | some l => l
                | none => []
              | none => []
            imageSizeLimit :=
              toInteger (match mediaConfig with
                | some m => m.imageSizeLimit
                | none => none) 0
            videoSizeLimit :=
              toInteger (match mediaConfig with
                | some m => m.videoSizeLimit
                | none => none) 0
            fetchedAt := fetchedAtIso }
        .ok ((normalized, { expiresAt := now + MASTODON_CACHE_TTL_MS, data := limits })
              :: cache.filter (fun e => !(e.1 == normalized)), limits)

/-- fetchMastodonInstanceLimits: checks the cache, otherwise consumes the
network outcome through `processInstanceOutcome`.  The cache, the current
time and the network outcome are explicit parameters; the result carries
the updated cache alongside the limits. -/
def fetchMastodonInstanceLimits
    (cache : List (String × CacheEntry)) (now : Int) (fetchedAtIso : String)
    (instanceUrl : String)
    (outcome : InstanceFetchOutcome) :
    Except HttpProblem (List (String × CacheEntry) × MastodonInstanceLimits) :=
  let normalized := normalizeMastodonInstanceUrl instanceUrl
  match cache.find? (fun e => e.1 == normalized) with
  | some (_, entry) =>
    if entry.expiresAt > now then .ok (cache, entry.data)
    else processInstanceOutcome cache now fetchedAtIso normalized outcome
  | none => processInstanceOutcome cache now fetchedAtIso normalized outcome

/-! ## Validation engine (`PreflightService`) -/

/-- Problem raised by `assertNonEmptySegments` when no segment is present. -/
def noSegmentsProblem : HttpProblem :=
  { type := "https://api.crosspost.local/problems/validation-error"
    title := "Validation failed"
    status := 400
    detail := "At least one thread segment is required" }

/-- Problem raised by `assertNonEmptySegments` for a blank segment. -/
def emptySegmentProblem (index : Nat) : HttpProblem :=
  { type := "https://api.crosspost.local/problems/validation-error"
    title := "Validation failed"
    status := 400
    detail := "Thread segment " ++ toString (index + 1) ++ " text must not be empty" }

/-- Trimmed-nonempty check of one segment list suffix, carrying the running
index; mirrors the `for` loop of `assertNonEmptySegments`. -/
def assertNonEmptySegmentsFrom : Nat → List PostSegment → Except HttpProblem Unit
  | _, [] => .ok ()
  | index, segment :: rest =>
    if isBlank segment.text then .error (emptySegmentProblem index)
    else assertNonEmptySegmentsFrom (index + 1) rest

/-- assertNonEmptySegments: at least one segment, every trimmed text
nonempty. -/
def assertNonEmptySegments (segments : List PostSegment) : Except HttpProblem Unit :=
  if segments.length == 0 then .error noSegmentsProblem
  else assertNonEmptySegmentsFrom 0 segments

/-- Problem raised by the Bluesky media checks; only the detail differs per
violation. -/
def blueskyMediaProblem (detail : String) : HttpProblem :=
  { type := "https://api.crosspost.local/problems/bluesky-media-invalid"
    title := "Invalid Bluesky media"
    status := 400
    detail := detail }

/-- Body of the `validateBlueskyMedia` loop for one segment at `index`:
the five checks in source order (unsupported MIME, mixed kinds, image
count, video count, video MIME). -/
def blueskyMediaCheckSegment (index : Nat) (segment : PostSegment) :
    Except HttpProblem Unit :=
  let imageMedia := segment.media.filter (fun item => classifyMediaType item.mimeType == .image)
  let videoMedia := segment.media.filter (fun item => classifyMediaType item.mimeType == .video)
  let unsupportedMedia := segment.media.filter (fun item => classifyMediaType item.mimeType == .other)
  if unsupportedMedia.length > 0 then
    .error (blueskyMediaProblem
      ("Thread segment " ++ toString (index + 1) ++ " has unsupported media MIME type(s) for Bluesky"))
  else if imageMedia.length > 0 && videoMedia.length > 0 then
    .error (blueskyMediaProblem
      "Bluesky supports either 1 video or 1-4 images per post segment, not mixed media")
  else if imageMedia.length > 4 then
    .error (blueskyMediaProblem
      ("Thread segment " ++ toString (index + 1) ++ " has " ++ toString imageMedia.length
        ++ " images. Bluesky allows up to 4."))
  else if videoMedia.length > 1 then
    .error (blueskyMediaProblem
      ("Thread segment " ++ toString (index + 1) ++ " has " ++ toString videoMedia.length
        ++ " videos. Bluesky allows only 1."))
  else if videoMedia.length == 1 then
    let videoMimeType := (match videoMedia.head? with
      | some v => lowerAscii v.mimeType
      | none => "")
    if videoMimeType != "video/mp4" then
      .error (blueskyMediaProblem
        "Bluesky video upload requires video/mp4 for reliable publishing in this gateway")
    else .ok ()
  else .ok ()

/-- The `validateBlueskyMedia` loop from a given index. -/
def validateBlueskyMediaFrom : Nat → List PostSegment → Except HttpProblem Unit
  | _, [] => .ok ()
  | index, segment :: rest => do
    blueskyMediaCheckSegment index segment
    validateBlueskyMediaFrom (index + 1) rest

/-- validateBlueskyMedia: every segment passes the per-segment media
checks. -/
def validateBlueskyMedia (segments : List PostSegment) : Except HttpProblem Unit :=
  validateBlueskyMediaFrom 0 segments

/-- Problem raised when a segment exceeds the X character limit. -/
def xLengthProblem (index : Nat) (length : Nat) : HttpProblem :=
  { type := "https://api.crosspost.local/problems/x-length-exceeded"
    title := "X character limit exceeded"
    status := 400
    detail := "Thread segment " ++ toString (index + 1) ++ " has " ++ toString length
      ++ " characters. This gateway enforces 280 for non-premium X users." }

/-- The X length loop of `PreflightService.validate`, from a given index. -/
def validateXLengthFrom : Nat → List PostSegment → Except HttpProblem Unit
  | _, [] => .ok ()
  | index, segment :: rest =>
    let length := countCodePoints segment.text
    if length > X_MAX_CHARACTERS then .error (xLengthProblem index length)
    else validateXLengthFrom (index + 1) rest

/-- The X length check over all segments. -/
def validateXLength (segments : List PostSegment) : Except HttpProblem Unit :=
  validateXLengthFrom 0 segments

/-- Problem raised when a segment exceeds the Bluesky character limit. -/
def blueskyLengthProblem (index : Nat) (length : Nat) : HttpProblem :=
  { type := "https://api.crosspost.local/problems/bluesky-length-exceeded"
    title := "Bluesky character limit exceeded"
    status := 400
    detail := "Thread segment " ++ toString (index + 1) ++ " has " ++ toString length
      ++ " characters. Bluesky allows up to 300." }

/-- The Bluesky length loop, from a given index. -/
def validateBlueskyLengthFrom : Nat → List PostSegment → Except HttpProblem Unit
  | _, [] => .ok ()
  | index, segment :: rest =>
    let length := countCodePoints segment.text
    if length > BLUESKY_MAX_CHARACTERS then .error (blueskyLengthProblem index length)
    else validateBlueskyLengthFrom (index + 1) rest

/-- Problem raised when a segment exceeds the instance character limit. -/
def mastodonLengthProblem (index : Nat) (length : Nat) (limits : MastodonInstanceLimits) :
    HttpProblem :=
  { type := "https://api.crosspost.local/problems/mastodon-length-exceeded"
    title := "Mastodon character limit exceeded"
    status := 400
    detail := "Thread segment " ++ toString (index + 1) ++ " has " ++ toString length
      ++ " characters. Instance " ++ limits.instanceUrl ++ " currently allows "
      ++ toString limits.maxCharacters ++ "." }

/-- Problem raised when a segment carries more media than the instance
allows. -/
def mastodonMediaProblem (index : Nat) (count : Nat) (limits : MastodonInstanceLimits) :
    HttpProblem :=
  { type := "https://api.crosspost.local/problems/mastodon-media-exceeded"
    title := "Mastodon media limit exceeded"
    status := 400
    detail := "Thread segment " ++ toString (index + 1) ++ " has " ++ toString count
      ++ " media files. Instance " ++ limits.instanceUrl ++ " currently allows "
      ++ toString limits.maxMediaAttachments ++ "." }

/-- The Mastodon per-segment loop, from a given index. -/
def validateMastodonFrom (limits : MastodonInstanceLimits) :
    Nat → List PostSegment → Except HttpProblem Unit
  | _, [] => .ok ()
  | index, segment :: rest =>
    let length := countCodePoints segment.text
    if (length : Int) > limits.maxCharacters then
      .error (mastodonLengthProblem index length limits)
    else if (segment.media.length : Int) > limits.maxMediaAttachments then
      .error (mastodonMediaProblem index segment.media.length limits)
    else validateMastodonFrom limits (index + 1) rest

/-- The X block of `PreflightService.validate`: runs only when X is
targeted. -/
def validateXBlock (request : PublishRequest) : Except HttpProblem Unit :=
  match request.targets.x with
  | some _ => validateXLength request.segments
  | none => .ok ()

/-- The Bluesky block of `PreflightService.validate`: length loop, then
the media checks. -/
def validateBlueskyBlock (request : PublishRequest) : Except HttpProblem Unit :=
  match request.targets.bluesky with
  | some _ =>
    match validateBlueskyLengthFrom 0 request.segments with
    | .error problem => .error problem
    | .ok _ => validateBlueskyMedia request.segments
  | none => .ok ()

/-- The Mastodon block of `PreflightService.validate`: awaits the
capability lookup, then runs the per-segment loop.  The lookup is an
external effect, so its result is the `mastodonFetch` parameter. -/
def validateMastodonBlock (request : PublishRequest)
    (mastodonFetch : MastodonTarget → Except HttpProblem MastodonInstanceLimits) :
    Except HttpProblem Unit :=
  match request.targets.mastodon with
  | some target =>
    match mastodonFetch target with
    | .error problem => .error problem
    | .ok limits => validateMastodonFrom limits 0 request.segments
  | none => .ok ()

/-- PreflightService.validate: structural check, then the X, Bluesky and
Mastodon blocks in source order; the first failure aborts the request. -/
def validate (request : PublishRequest)
    (mastodonFetch : MastodonTarget → Except HttpProblem MastodonInstanceLimits) :
    Except HttpProblem Unit :=
  match assertNonEmptySegments request.segments with
  | .error problem => .error problem
  | .ok _ =>
    match validateXBlock request with
    | .error problem => .error problem
    | .ok _ =>
      match validateBlueskyBlock request with
      | .error problem => .error problem
      | .ok _ => validateMastodonBlock request mastodonFetch

/-! ## Dispatcher (`CrosspostService`) -/

/-- A thrown JS value as the dispatcher observes it: `some m` is an `Error`
whose `message` is `m` (possibly empty), `none` is any non-`Error` value. -/
abbrev ThrownValue : Type := Option String

/-- extractErrorMessage: the message of an `Error` when it is nonempty,
otherwise the fallback text. -/
def extractErrorMessage (error : ThrownValue) : String :=
  match error with
  | some m => if m == "" then "Unknown publishing error" else m
  | none => "Unknown publishing error"

/-- Behavior of one Publisher call: either it returns a delivery record or
it throws. -/
abbrev PublisherOutcome : Type := Except ThrownValue TargetDelivery

/-- runTarget: records the returned delivery, or converts a thrown value
into an `ok:false` record for the same platform key. -/
def runTarget (platform : PlatformName) (operation : PublisherOutcome) : TargetDelivery :=
  match operation with
  | .ok delivery => delivery
  | .error e => .failure platform (extractErrorMessage e)

/-- Requested platforms in the order the dispatcher pushes tasks
(x, bluesky, mastodon). -/
def requestedPlatforms (targets : Targets) : List PlatformName :=
  (match targets.x with | some _ => [PlatformName.x] | none => [])
    ++ (match targets.bluesky with | some _ => [PlatformName.bluesky] | none => [])
    ++ (match targets.mastodon with | some _ => [PlatformName.mastodon] | none => [])

/-- The deliveries record after all tasks complete: one entry per requested
platform, keyed by platform name; each task owns a disjoint key, so the
joined result is this list. -/
def dispatchDeliveries (targets : Targets)
    (publishers : PlatformName → PublisherOutcome) :
    List (PlatformName × TargetDelivery) :=
  (requestedPlatforms targets).map (fun p => (p, runTarget p (publishers p)))

/-- Problem raised when no target accepted the post. -/
def deliveryFailedProblem : HttpProblem :=
  { type := "https://api.crosspost.local/problems/delivery-failed"
    title := "Delivery failed"
    status := 502
    detail := "None of the target platforms accepted the post. Check per-platform error details." }

/-- CrosspostService.dispatch: validate, fan out to the requested
publishers, then aggregate.  `publishers` stands for the per-platform
Publisher calls and `postedAt` for the completion timestamp. -/
def dispatch (request : PublishRequest)
    (mastodonFetch : MastodonTarget → Except HttpProblem MastodonInstanceLimits)
    (publishers : PlatformName → PublisherOutcome)
    (postedAt : String) :
    Except HttpProblem CrosspostDispatchResult := do
  validate request mastodonFetch
  let deliveries := dispatchDeliveries request.targets publishers
  let targetResults := deliveries.map Prod.snd
  let successCount := (targetResults.filter (fun item => item.ok)).length
  let failureCount := targetResults.length - successCount
  if targetResults.length == 0 || successCount == 0 then
    .error deliveryFailedProblem
  else
    .ok { overall := if failureCount == 0 then "success" else "partial"
          postedAt := postedAt
          clientRequestId := request.clientRequestId
          deliveries := deliveries }

/-! ## Job store and scheduler (`job-store.ts`, `scheduler-service.ts`)

Every store mutation runs under the store writer lock, so the embedding
treats `get` and `update` as atomic operations on the in-memory job list. -/

/-- Job lifecycle states (`JobStatus`); the source uses string literals,
rendered back by `JobStatus.str`. -/
inductive JobStatus
  | scheduled
  | running
  | succeeded
  | partialSuccess
  | failed
  | cancelled
deriving DecidableEq, Repr

/-- The string literal of a status, as stored and interpolated by the
source (`"partial"` for `partialSuccess`). -/
def JobStatus.str : JobStatus → String
  | .scheduled => "scheduled"
  | .running => "running"
  | .succeeded => "succeeded"
  | .partialSuccess => "partial"
  | .failed => "failed"
  | .cancelled => "cancelled"

/-- One stored media reference (`StoredMediaReference`). -/
structure StoredMediaReference where
  path : String
  segmentIndex : Nat
  fileName : String
  mimeType : String
  altText : Option String
deriving DecidableEq, Repr

/-- A stored job record (`StoredJob` in `job-store.ts`). -/
structure StoredJob where
  id : String
  createdAt : String
  runAt : String
  status : JobStatus
  encryptedPayload : String
  media : List StoredMediaReference
  attemptCount : Nat
  completedAt : Option String
  lastError : Option String
  deliveries : Option (List (PlatformName × TargetDelivery))
deriving DecidableEq, Repr

/-- The externally visible projection (`JobSummary`). -/
structure JobSummary where
  id : String
  createdAt : String
  runAt : String
  status : JobStatus
  attemptCount : Nat
  completedAt : Option String
  lastError : Option String
  deliveries : Option (List (PlatformName × TargetDelivery))
deriving DecidableEq, Repr

/-- toJobSummary: drops `encryptedPayload` and `media`. -/
def toJobSummary (job : StoredJob) : JobSummary :=
  { id := job.id
    createdAt := job.createdAt
    runAt := job.runAt
    status := job.status
    attemptCount := job.attemptCount
    completedAt := job.completedAt
    lastError := job.lastError
    deliveries := job.deliveries }

/-- The in-memory job map (`JobStore.jobs`, a `Map` keyed by id). -/
abbrev Store : Type := String → Option StoredJob

/-- JobStore.get: the record with the given id, when present. -/
def Store.get (store : Store) (id : String) : Option StoredJob :=
  store id

/-- JobStore.update: applies the mutator to the current record and stores
the result under the same key (`Map.set`); yields the updated record, or
`none` for an unknown id. -/
def Store.update (store : Store) (id : String) (mutate : StoredJob → StoredJob) :
    Store × Option StoredJob :=
  match Store.get store id with
  | none => (store, none)
  | some current =>
    let next := mutate current
    (fun key => if key == id then some next else store key, some next)

/-- Problem raised for an unknown job id. -/
def jobNotFoundProblem (jobId : String) : HttpProblem :=
  { type := "https://api.crosspost.local/problems/not-found"
    title := "Job not found"
    status := 404
    detail := "No job exists with id " ++ jobId }

/-- Problem raised when cancelling a job that is no longer `scheduled`;
the detail names the current status. -/
def cancelConflictProblem (jobId : String) (status : JobStatus) : HttpProblem :=
  { type := "https://api.crosspost.local/problems/conflict"
    title := "Job cannot be cancelled"
    status := 409
    detail := "Job " ++ jobId ++ " is " ++ status.str
      ++ " and can no longer be cancelled" }

/-- SchedulerService.cancel: not-found check, conflict check, then the
update to `cancelled` with `completedAt` set and the media cleanup.  The
result carries the updated store, the list of media directories removed
(`cleanupMedia` calls, by job id) and the returned summary. -/
def cancel (store : Store) (jobId : String) (now : String) :
    Except HttpProblem (Store × List String × JobSummary) :=
  match Store.get store jobId with
  | none => .error (jobNotFoundProblem jobId)
  | some existing =>
    if existing.status != .scheduled then
      .error (cancelConflictProblem jobId existing.status)
    else
      match Store.update store jobId (fun current =>
          { current with status := .cancelled, completedAt := some now }) with
      | (_, none) => .error (jobNotFoundProblem jobId)
      | (store1, some cancelled) => .ok (store1, [jobId], toJobSummary cancelled)

/-- SchedulerService.processJob: the first update marks the job `running`
and increments `attemptCount`; the `try` body (decrypt, media rehydration,
dispatch) is summarized by `runResult`, which is the dispatch result or the
message of the exception that escaped.  The success arm stores the terminal
status with `completedAt`, `deliveries` and a cleared `lastError`, then
deletes the media directory; the catch arm stores `failed`, `completedAt`
and `lastError`, and performs no media cleanup.  The returned list holds
the job ids whose media directories were removed. -/
def processJob (store : Store) (job : StoredJob)
    (runResult : Except String CrosspostDispatchResult) (now : String) :
    Store × List String :=
  let (store1, _) := Store.update store job.id (fun current =>
    { current with status := .running, attemptCount := current.attemptCount + 1 })
  match runResult with
  | .ok result =>
    let status : JobStatus :=
      if result.overall == "success" then .succeeded else .partialSuccess
    let (store2, _) := Store.update store1 job.id (fun current =>
      { current with
          status := status
          completedAt := some now
          deliveries := some result.deliveries
          lastError := none })
    (store2, [job.id])
  | .error message =>
    let (store2, _) := Store.update store1 job.id (fun current =>
      { current with
          status := .failed
          completedAt := some now
          lastError := some message })
    (store2, [])

/-! ## Crypto envelope (`src/security/crypto.ts`)

The token format logic (version tag, dot-separated components, component
presence checks) is translated from the source.  The runtime primitives it
calls — node aes-256-gcm and base64url `Buffer` codecs — are not part of
the repository, so they are modelled from the spec: an idealized
authenticated cipher whose tag verifies only the exact (key, nonce,
ciphertext) triple it was produced for, and a strict canonical base64url
codec (the spec takes format mismatches to be rejected explicitly).  The
JSON serialization layer is likewise external; a JSON-serializable value
is represented by its serialized UTF-8 bytes.  Tokens are byte lists
(ASCII codes), so flipping a byte of the token is `List.set`. -/

/-- Predicate that every entry of a byte list is an actual byte. -/
def ValidBytes (bytes : List Nat) : Prop := ∀ b ∈ bytes, b < 256

instance (bytes : List Nat) : Decidable (ValidBytes bytes) :=
  inferInstanceAs (Decidable (∀ b ∈ bytes, b < 256))

/-- The ASCII code of the dot separator. -/
def DOT : Nat := 46

/-- Modelled from the spec: the base64url alphabet, sextet to ASCII code
(A-Z, a-z, 0-9, minus, underscore). -/
def b64EncChar (n : Nat) : Nat :=
  if n < 26 then 65 + n
  else if n < 52 then 97 + (n - 26)
  else if n < 62 then 48 + (n - 52)
  else if n = 62 then 45
  else 95

/-- Modelled from the spec: ASCII code back to sextet; codes outside the
base64url alphabet are rejected. -/
def b64DecChar (c : Nat) : Option Nat :=
  if 65 ≤ c ∧ c ≤ 90 then some (c - 65)
  else if 97 ≤ c ∧ c ≤ 122 then some (c - 97 + 26)
  else if 48 ≤ c ∧ c ≤ 57 then some (c - 48 + 52)
  else if c = 45 then some 62
  else if c = 95 then some 63
  else none

/-- Modelled from the spec: unpadded base64url encoding of a byte list,
three bytes to four characters, with two or three characters for a one or
two byte remainder. -/
def b64Encode : List Nat → List Nat
  | [] => []
  | [b1] => [b64EncChar (b1 / 4), b64EncChar (b1 % 4 * 16)]
  | [b1, b2] =>
    [b64EncChar (b1 / 4), b64EncChar (b1 % 4 * 16 + b2 / 16), b64EncChar (b2 % 16 * 4)]
  | b1 :: b2 :: b3 :: rest =>
    b64EncChar (b1 / 4) :: b64EncChar (b1 % 4 * 16 + b2 / 16)
      :: b64EncChar (b2 % 16 * 4 + b3 / 64) :: b64EncChar (b3 % 64) :: b64Encode rest

/-- Modelled from the spec: strict base64url decoding — invalid characters,
a remainder of one character, and nonzero padding bits are rejected, so
decoding succeeds exactly on canonical encodings. -/
def b64Decode : List Nat → Option (List Nat)
  | [] => some []
  | [_] => none
  | [c1, c2] =>
    match b64DecChar c1, b64DecChar c2 with
    | some s1, some s2 =>
      if s2 % 16 = 0 then some [s1 * 4 + s2 / 16] else none
    | _, _ => none
  | [c1, c2, c3] =>
    match b64DecChar c1, b64DecChar c2, b64DecChar c3 with
    | some s1, some s2, some s3 =>
      if s3 % 4 = 0 then some [s1 * 4 + s2 / 16, s2 % 16 * 16 + s3 / 4] else none
    | _, _, _ => none
  | c1 :: c2 :: c3 :: c4 :: rest =>
    match b64DecChar c1, b64DecChar c2, b64DecChar c3, b64DecChar c4, b64Decode rest with
    | some s1, some s2, some s3, some s4, some tail =>
      some ((s1 * 4 + s2 / 16) :: (s2 % 16 * 16 + s3 / 4) :: (s3 % 4 * 64 + s4) :: tail)
    | _, _, _, _, _ => none

/-- JS `String.split` on the dot separator over byte lists: splitting the
empty string yields one empty component. -/
def splitOnDot : List Nat → List (List Nat)
  | [] => [[]]
  | b :: rest =>
    if b = DOT then [] :: splitOnDot rest
    else
      match splitOnDot rest with
      | head :: tail => (b :: head) :: tail
      | [] => [[b]]

/-- Modelled from the spec: the per-position keystream of the idealized
cipher, derived from the key and the nonce. -/
def keyStreamAt (key iv : List Nat) (i : Nat) : Nat :=
  (key.getD (i % 32) 0 + iv.getD (i % 12) 0) % 256

/-- Modelled from the spec: the encryption direction of the idealized
cipher, byte by byte from position `i`. -/
def gcmMaskFrom (key iv : List Nat) : Nat → List Nat → List Nat
  | _, [] => []
  | i, b :: rest => (b + keyStreamAt key iv i) % 256 :: gcmMaskFrom key iv (i + 1) rest

/-- Modelled from the spec: the decryption direction of the idealized
cipher. -/
def gcmUnmaskFrom (key iv : List Nat) : Nat → List Nat → List Nat
  | _, [] => []
  | i, b :: rest =>
    (b + 256 - keyStreamAt key iv i % 256) % 256 :: gcmUnmaskFrom key iv (i + 1) rest

/-- Unary length framing used by the idealized tag. -/
def unary (n : Nat) : List Nat := List.replicate n 1 ++ [0]

/-- Modelled from the spec: the idealized
authentication tag — it determines, for a fixed key, exactly the nonce and
ciphertext it was computed over (the formal idealization of an
authenticated cipher rejecting every other triple). -/
def gcmTag (key iv cipher : List Nat) : List Nat :=
  key ++ unary iv.length ++ unary cipher.length ++ iv ++ cipher

/-- Modelled from the spec: authenticated decryption — the ciphertext is
unmasked only when the presented tag is the tag of the presented (key,
nonce, ciphertext) triple. -/
def gcmDecrypt (key iv cipher tag : List Nat) : Option (List Nat) :=
  if tag = gcmTag key iv cipher then some (gcmUnmaskFrom key iv 0 cipher) else none

/-- The version prefix of the token, the ASCII bytes of `v1`. -/
def ENCRYPTION_VERSION : List Nat := [118, 49]

/-- encryptJson: serialized value encrypted under a fresh nonce, emitted as
`version.nonce.tag.ciphertext` with each component base64url-encoded.  The
nonce is an explicit parameter (the source draws 12 random bytes). -/
def encryptJson (plain key iv : List Nat) : List Nat :=
  ENCRYPTION_VERSION
    ++ DOT :: b64Encode iv
    ++ DOT :: b64Encode (gcmTag key iv (gcmMaskFrom key iv 0 plain))
    ++ DOT :: b64Encode (gcmMaskFrom key iv 0 plain)

/-- The split-and-check prelude of decryptJson: the token is split on dots,
the first four components are read (extras ignored, as the source
destructures), and the version tag and component presence are checked. -/
def parseToken (token : List Nat) : Option (List Nat × List Nat × List Nat) :=
  match splitOnDot token with
  | version :: ivRaw :: authTagRaw :: encryptedRaw :: _ =>
    if version = ENCRYPTION_VERSION ∧ ivRaw ≠ [] ∧ authTagRaw ≠ [] ∧ encryptedRaw ≠ []
    then some (ivRaw, authTagRaw, encryptedRaw)
    else none
  | _ => none

/-- decryptJson: parse the token, decode the three components, then
authenticated decryption; every failure is `none` (fail closed). -/
def decryptJson (token key : List Nat) : Option (List Nat) :=
  match parseToken token with
  | none => none
  | some (ivRaw, authTagRaw, encryptedRaw) =>
    match b64Decode ivRaw, b64Decode authTagRaw, b64Decode encryptedRaw with
    | some iv, some authTag, some encrypted => gcmDecrypt key iv encrypted authTag
    | _, _, _ => none

/-- Success test for an `Except` result. -/
def exceptOk {ε α : Type} : Except ε α → Bool
  | .ok _ => true
  | .error _ => false

/-- Decidable equality of `Except` results, for evaluating the model on
concrete inputs. -/
instance {ε α : Type} [DecidableEq ε] [DecidableEq α] :
    DecidableEq (Except ε α) := fun a b =>
  match a, b with
  | .ok x, .ok y =>
    if h : x = y then .isTrue (by rw [h]) else .isFalse (by intro hc; cases hc; exact h rfl)
  | .error x, .error y =>
    if h : x = y then .isTrue (by rw [h]) else .isFalse (by intro hc; cases hc; exact h rfl)
  | .ok _, .error _ => .isFalse (by intro hc; cases hc)
  | .error _, .ok _ => .isFalse (by intro hc; cases hc)

/-- Conditions the claim places on one Bluesky-targeted segment, stated
from the spec wording for comparison with the source checks: no media item
outside image/video, never both kinds, at most 4 images, at most 1 video,
and a lone video must be MP4 (MIME equality is case-insensitive, as MIME
types are). -/
def blueskySegmentAdmissible (segment : PostSegment) : Bool :=
  let images := segment.media.filter (fun item => classifyMediaType item.mimeType == .image)
  let videos := segment.media.filter (fun item => classifyMediaType item.mimeType == .video)
  let others := segment.media.filter (fun item => classifyMediaType item.mimeType == .other)
  others.length == 0
    && !(images.length > 0 && videos.length > 0)
    && images.length ≤ 4
    && videos.length ≤ 1
    && videos.all (fun v => lowerAscii v.mimeType == "video/mp4")

/-- The frame of a stored job the scheduler never rewrites: id, creation
time, run time, encrypted payload and media reference list. -/
def jobFrame (job : StoredJob) :
    String × String × String × String × List StoredMediaReference :=
  (job.id, job.createdAt, job.runAt, job.encryptedPayload, job.media)

/-! ## Concrete fixtures used by the witnesses -/

/-- A plain one-segment body. -/
def sampleSegment : PostSegment := { text := "hello", media := [] }

/-- Targets requesting x and bluesky. -/
def sampleTargets : Targets :=
  { x := some { authToken := "sample-token" }
    bluesky := some { identifier := "alice.example"
                      pdsUrl := "https://pds.example"
                      appPassword := "app-password" }
    mastodon := none }

/-- A validated request against `sampleTargets`. -/
def sampleRequest : PublishRequest :=
  { targets := sampleTargets, segments := [sampleSegment], clientRequestId := none }

/-- Capability lookup stub; never reached because `sampleTargets` requests
no mastodon delivery. -/
def sampleFetch : MastodonTarget → Except HttpProblem MastodonInstanceLimits :=
  fun target => .error (mastodonInvalidProblem target.instanceUrl)

/-- Publishers that all succeed. -/
def samplePublishersOk : PlatformName → PublisherOutcome :=
  fun p => .ok (.success p "post-1" none)

/-- Publishers where only the bluesky call throws. -/
def samplePublishersBlueskyThrows : PlatformName → PublisherOutcome :=
  fun p => match p with
    | .bluesky => .error (some "boom")
    | _ => .ok (.success p "post-1" none)

/-- A text of 281 identical code points, one above the X limit. -/
def overlongText : String := String.mk (List.replicate 281 'a')

/-- A request targeting only X whose single segment exceeds 280 code
points. -/
def overlongRequest : PublishRequest :=
  { targets := { x := some { authToken := "sample-token" }
                 bluesky := none
                 mastodon := none }
    segments := [{ text := overlongText, media := [] }]
    clientRequestId := none }

/-- A 32-byte key fixture. -/
def sampleKeyBytes : List Nat := List.range 32

/-- A 12-byte nonce fixture. -/
def sampleIvBytes : List Nat := List.range 12

/-- A short serialized payload fixture. -/
def samplePlainBytes : List Nat := [104, 105]

/-- A scheduled job fixture. -/
def sampleJob : StoredJob :=
  { id := "job-1"
    createdAt := "2026-01-01T00:00:00.000Z"
    runAt := "2026-01-02T00:00:00.000Z"
    status := .scheduled
    encryptedPayload := "v1.aaaa.bbbb.cccc"
    media := [{ path := "data/scheduled-media/job-1/1-a.png"
                segmentIndex := 0
                fileName := "1-a.png"
                mimeType := "image/png"
                altText := none }]
    attemptCount := 0
    completedAt := none
    lastError := none
    deliveries := none }

/-- A store holding only `sampleJob`. -/
def sampleStore : Store :=
  fun key => if key == "job-1" then some sampleJob else none

/-- Instance response whose configuration.statuses block is present but
carries no limit fields. -/
def emptyStatusesPayload : InstancePayload :=
  { statuses := some { maxCharacters := none
                       maxMediaAttachments := none
                       charactersReservedPerUrl := none }
    mediaAttachments := none }

/-! ## Theorems -/

section Theorems

/-- Reduction of `dispatch` once validation is known to pass. -/
theorem dispatch_eq_core (request : PublishRequest)
    (mastodonFetch : MastodonTarget → Except HttpProblem MastodonInstanceLimits)
    (publishers : PlatformName → PublisherOutcome) (postedAt : String)
    (hvalid : validate request mastodonFetch = .ok ()) :
    dispatch request mastodonFetch publishers postedAt =
      (let deliveries := dispatchDeliveries request.targets publishers
       let targetResults := deliveries.map Prod.snd
       let successCount := (targetResults.filter (fun item => item.ok)).length
       let failureCount := targetResults.length - successCount
       if targetResults.length == 0 || successCount == 0 then
         .error deliveryFailedProblem
       else
         .ok { overall := if failureCount == 0 then "success" else "partial"
               postedAt := postedAt
               clientRequestId := request.clientRequestId
               deliveries := deliveries }) := by
  unfold dispatch
  rw [hvalid]
  rfl

/-- C1: for a dispatch whose validation passes, with a non-empty target
set, the returned outcome has overall `"success"` exactly when every
attempted target delivery is ok, overall `"partial"` exactly when at least
one but not all are ok, and when zero targets succeed (or the target set is
empty) dispatch returns no outcome and fails with the 502 delivery-failed
problem. -/
theorem dispatch_overall_aggregation
    (request : PublishRequest)
    (mastodonFetch : MastodonTarget → Except HttpProblem MastodonInstanceLimits)
    (publishers : PlatformName → PublisherOutcome) (postedAt : String)
    (hvalid : validate request mastodonFetch = .ok ()) :
    ((dispatchDeliveries request.targets publishers = []
        ∨ ∀ entry ∈ dispatchDeliveries request.targets publishers, entry.2.ok = false) →
      dispatch request mastodonFetch publishers postedAt = .error deliveryFailedProblem
        ∧ deliveryFailedProblem.status = 502)
    ∧ ((∃ entry ∈ dispatchDeliveries request.targets publishers, entry.2.ok = true) →
      ∃ outcome, dispatch request mastodonFetch publishers postedAt = .ok outcome)
    ∧ (∀ outcome, dispatch request mastodonFetch publishers postedAt = .ok outcome →
      (outcome.overall = "success"
          ↔ ∀ entry ∈ dispatchDeliveries request.targets publishers, entry.2.ok = true)
        ∧ (outcome.overall = "partial"
          ↔ ((∃ entry ∈ dispatchDeliveries request.targets publishers, entry.2.ok = true)
              ∧ ∃ entry ∈ dispatchDeliveries request.targets publishers, entry.2.ok = false))) := by
  rw [dispatch_eq_core request mastodonFetch publishers postedAt hvalid]
  set ds := dispatchDeliveries request.targets publishers with hds
  simp only []
  set tr := ds.map Prod.snd with htr
  have hmemtr : ∀ d, d ∈ tr ↔ ∃ entry ∈ ds, entry.2 = d := by
    intro d
    simp [htr, List.mem_map]
  have hlen : (tr.filter (fun item => item.ok)).length ≤ tr.length :=
    List.length_filter_le _ _
  refine ⟨?_, ?_, ?_⟩
  · intro h
    refine ⟨?_, rfl⟩
    rcases h with hempty | hallfail
    · have : tr = [] := by simp [htr, hempty]
      simp [this]
    · have hfil : tr.filter (fun item => item.ok) = [] := by
        rw [List.filter_eq_nil_iff]
        intro d hd
        rcases (hmemtr d).mp hd with ⟨entry, hm, rfl⟩
        simp [hallfail entry hm]
      by_cases hnil : tr.length = 0
      · simp [hnil]
      · simp [hfil]
  · rintro ⟨entry, hm, hok⟩
    have hmem : entry.2 ∈ tr.filter (fun item => item.ok) :=
      List.mem_filter.mpr ⟨(hmemtr entry.2).mpr ⟨entry, hm, rfl⟩, by simp [hok]⟩
    have hposf : 0 < (tr.filter (fun item => item.ok)).length :=
      List.length_pos.mpr (List.ne_nil_of_mem hmem)
    have hpos : 0 < tr.length := by
      have := List.length_pos.mpr (List.ne_nil_of_mem ((hmemtr entry.2).mpr ⟨entry, hm, rfl⟩))
      exact this
    have hcond : (tr.length == 0 || (tr.filter (fun item => item.ok)).length == 0) = false := by
      simp only [Bool.or_eq_false_iff, beq_eq_false_iff_ne]
      omega
    rw [hcond]
    exact ⟨_, rfl⟩
  · intro outcome houtcome
    by_cases hcond : (tr.length == 0 || (tr.filter (fun item => item.ok)).length == 0) = true
    · rw [if_pos hcond] at houtcome
      cases houtcome
    · rw [if_neg (by simpa using hcond)] at houtcome
      have hcond' : tr.length ≠ 0 ∧ (tr.filter (fun item => item.ok)).length ≠ 0 := by
        simpa [Bool.or_eq_false_iff, beq_eq_false_iff_ne] using hcond
      have hovr : outcome.overall =
          (if tr.length - (tr.filter (fun item => item.ok)).length = 0
            then "success" else "partial") := by
        cases houtcome
        simp
      have hallsucc : (tr.length - (tr.filter (fun item => item.ok)).length = 0)
          ↔ ∀ entry ∈ ds, entry.2.ok = true := by
        constructor
        · intro h0 entry hm
          have heq : (tr.filter (fun item => item.ok)).length = tr.length := by omega
          have := List.filter_length_eq_length.mp heq entry.2
            ((hmemtr entry.2).mpr ⟨entry, hm, rfl⟩)
          simpa using this
        · intro hall
          have heq : (tr.filter (fun item => item.ok)).length = tr.length := by
            apply List.filter_length_eq_length.mpr
            intro d hd
            rcases (hmemtr d).mp hd with ⟨entry, hm, rfl⟩
            simp [hall entry hm]
          omega
      constructor
      · rw [hovr]
        constructor
        · intro hs
          by_cases hz : tr.length - (tr.filter (fun item => item.ok)).length = 0
          · exact hallsucc.mp hz
          · rw [if_neg hz] at hs
            exact absurd hs (by decide)
        · intro hall
          rw [if_pos (hallsucc.mpr hall)]
      · rw [hovr]
        constructor
        · intro hs
          by_cases hz : tr.length - (tr.filter (fun item => item.ok)).length = 0
          · rw [if_pos hz] at hs
            exact absurd hs (by decide)
          · refine ⟨?_, ?_⟩
            · have hne : tr.filter (fun item => item.ok) ≠ [] := by
                intro hnil
                exact hcond'.2 (by simp [hnil])
              rcases List.exists_mem_of_ne_nil _ hne with ⟨d, hd⟩
              rcases (hmemtr d).mp (List.mem_of_mem_filter hd) with ⟨entry, hm, hde⟩
              exact ⟨entry, hm, by
                have := (List.mem_filter.mp hd).2
                simpa [hde] using this⟩
            · by_contra hnone
              push_neg at hnone
              apply hz
              apply (hallsucc.mpr ?_)
              intro entry hm
              have := hnone entry hm
              cases hok : entry.2.ok
              · exact absurd hok this
              · rfl
        · rintro ⟨-, ⟨entry, hm, hfail⟩⟩
          have hz : tr.length - (tr.filter (fun item => item.ok)).length ≠ 0 := by
            intro hz
            have := hallsucc.mp hz entry hm
            rw [this] at hfail
            cases hfail
          rw [if_neg hz]

/-- Witness for C1: with x and bluesky requested and both publishers
succeeding, dispatch returns an outcome. -/
theorem dispatch_overall_aggregation_witness :
    ∃ outcome,
      dispatch sampleRequest sampleFetch samplePublishersOk "2026-01-01T00:00:00Z"
        = .ok outcome :=
  (dispatch_overall_aggregation sampleRequest sampleFetch samplePublishersOk
      "2026-01-01T00:00:00Z" (by decide)).2.1
    ⟨(PlatformName.x, TargetDelivery.success .x "post-1" none), by decide, by decide⟩

/-- Requested platforms never repeat, so the delivery keys are distinct. -/
theorem requestedPlatforms_nodup (targets : Targets) :
    (requestedPlatforms targets).Nodup := by
  obtain ⟨tx, tb, tm⟩ := targets
  cases tx <;> cases tb <;> cases tm <;> (simp only [requestedPlatforms]; decide)

/-- Membership in the joined deliveries list. -/
theorem mem_dispatchDeliveries (targets : Targets)
    (publishers : PlatformName → PublisherOutcome)
    (pair : PlatformName × TargetDelivery) :
    pair ∈ dispatchDeliveries targets publishers
      ↔ pair.1 ∈ requestedPlatforms targets
          ∧ pair.2 = runTarget pair.1 (publishers pair.1) := by
  obtain ⟨q, d⟩ := pair
  simp only [dispatchDeliveries, List.mem_map, Prod.mk.injEq]
  constructor
  · rintro ⟨p, hp, rfl, rfl⟩
    exact ⟨hp, rfl⟩
  · rintro ⟨hq, rfl⟩
    exact ⟨q, hq, rfl, rfl⟩

/-- The delivery keys are the requested platforms in push order. -/
theorem dispatchDeliveries_keys (targets : Targets)
    (publishers : PlatformName → PublisherOutcome) :
    (dispatchDeliveries targets publishers).map Prod.fst = requestedPlatforms targets := by
  simp [dispatchDeliveries, List.map_map, Function.comp_def]

/-- C2: when exactly one of at least two requested targets throws (an Error
with a nonempty message) and every other requested publisher returns a
success record, dispatch returns a partial outcome whose deliveries hold
exactly one entry per requested target, the throwing target maps to an
ok:false record carrying the thrown message, and every other target maps
to an ok:true record. -/
theorem dispatch_single_failure_isolation
    (request : PublishRequest)
    (mastodonFetch : MastodonTarget → Except HttpProblem MastodonInstanceLimits)
    (publishers : PlatformName → PublisherOutcome) (postedAt : String)
    (p : PlatformName) (message : String)
    (hvalid : validate request mastodonFetch = .ok ())
    (hp : p ∈ requestedPlatforms request.targets)
    (hother : ∃ q ∈ requestedPlatforms request.targets, q ≠ p)
    (hthrow : publishers p = .error (some message))
    (hmessage : message ≠ "")
    (hok : ∀ q ∈ requestedPlatforms request.targets, q ≠ p →
        ∃ id url, publishers q = .ok (.success q id url)) :
    ∃ outcome, dispatch request mastodonFetch publishers postedAt = .ok outcome
      ∧ outcome.overall = "partial"
      ∧ outcome.deliveries.map Prod.fst = requestedPlatforms request.targets
      ∧ (outcome.deliveries.map Prod.fst).Nodup
      ∧ (p, TargetDelivery.failure p message) ∈ outcome.deliveries
      ∧ (∀ entry ∈ outcome.deliveries, entry.1 = p → entry.2 = .failure p message)
      ∧ (∀ entry ∈ outcome.deliveries, entry.1 ≠ p → entry.2.ok = true) := by
  have hrunp : runTarget p (publishers p) = .failure p message := by
    rw [hthrow]
    simp [runTarget, extractErrorMessage, hmessage]
  rcases hother with ⟨q, hq, hqp⟩
  rcases hok q hq hqp with ⟨qid, qurl, hqpub⟩
  have hrunq : runTarget q (publishers q) = .success q qid qurl := by
    rw [hqpub]
    rfl
  set ds := dispatchDeliveries request.targets publishers with hds
  have hpmem : (p, TargetDelivery.failure p message) ∈ ds := by
    rw [hds, mem_dispatchDeliveries]
    exact ⟨hp, hrunp.symm⟩
  have hqmem : (q, TargetDelivery.success q qid qurl) ∈ ds := by
    rw [hds, mem_dispatchDeliveries]
    exact ⟨hq, hrunq.symm⟩
  set tr := ds.map Prod.snd with htr
  have hqtr : TargetDelivery.success q qid qurl ∈ tr := by
    rw [htr]
    exact List.mem_map.mpr ⟨_, hqmem, rfl⟩
  have hptr : TargetDelivery.failure p message ∈ tr := by
    rw [htr]
    exact List.mem_map.mpr ⟨_, hpmem, rfl⟩
  have hfilpos : 0 < (tr.filter (fun item => item.ok)).length := by
    have : TargetDelivery.success q qid qurl ∈ tr.filter (fun item => item.ok) :=
      List.mem_filter.mpr ⟨hqtr, rfl⟩
    exact List.length_pos.mpr (List.ne_nil_of_mem this)
  have hlenpos : 0 < tr.length := List.length_pos.mpr (List.ne_nil_of_mem hqtr)
  have hnotall : (tr.filter (fun item => item.ok)).length ≠ tr.length := by
    intro heq
    have := List.filter_length_eq_length.mp heq _ hptr
    simp [TargetDelivery.ok] at this
  have hfillt : (tr.filter (fun item => item.ok)).length ≤ tr.length :=
    List.length_filter_le _ _
  rw [dispatch_eq_core request mastodonFetch publishers postedAt hvalid]
  simp only [← hds, ← htr]
  have hcond : (tr.length == 0 || (tr.filter (fun item => item.ok)).length == 0) = false := by
    simp only [Bool.or_eq_false_iff, beq_eq_false_iff_ne]
    omega
  rw [hcond]
  simp only [Bool.false_eq_true, if_false]
  have hfc : (tr.length - (tr.filter (fun item => item.ok)).length = 0) = False := by
    simp only [eq_iff_iff, iff_false]
    omega
  refine ⟨_, rfl, ?_, ?_, ?_, hpmem, ?_, ?_⟩
  · simp [hfc]
  · rw [hds, dispatchDeliveries_keys]
  · rw [hds, dispatchDeliveries_keys]
    exact requestedPlatforms_nodup _
  · intro entry hmem hep
    have := (mem_dispatchDeliveries _ _ _).mp (hds ▸ hmem)
    rw [this.2, hep, hrunp]
  · intro entry hmem hep
    have hstruct := (mem_dispatchDeliveries _ _ _).mp (hds ▸ hmem)
    rcases hok entry.1 hstruct.1 hep with ⟨eid, eurl, hepub⟩
    rw [hstruct.2, hepub]
    rfl

/-- Witness for C2: x and bluesky requested, the bluesky publisher throws
with message `boom`, the x publisher succeeds. -/
theorem dispatch_single_failure_isolation_witness :
    ∃ outcome,
      dispatch sampleRequest sampleFetch samplePublishersBlueskyThrows
          "2026-01-01T00:00:00Z" = .ok outcome
        ∧ outcome.overall = "partial"
        ∧ outcome.deliveries.map Prod.fst = requestedPlatforms sampleRequest.targets
        ∧ (outcome.deliveries.map Prod.fst).Nodup
        ∧ (PlatformName.bluesky, TargetDelivery.failure .bluesky "boom") ∈ outcome.deliveries
        ∧ (∀ entry ∈ outcome.deliveries, entry.1 = PlatformName.bluesky →
            entry.2 = .failure .bluesky "boom")
        ∧ (∀ entry ∈ outcome.deliveries, entry.1 ≠ PlatformName.bluesky →
            entry.2.ok = true) :=
  dispatch_single_failure_isolation sampleRequest sampleFetch
    samplePublishersBlueskyThrows "2026-01-01T00:00:00Z" .bluesky "boom"
    (by decide) (by decide) ⟨.x, by decide, by decide⟩ (by decide) (by decide)
    (fun q hq hqp => by
      cases q
      · exact ⟨"post-1", none, rfl⟩
      · exact absurd rfl hqp
      · exact absurd hq (by decide))

/-- Admissibility of one segment, unfolded to propositional form. -/
theorem blueskySegmentAdmissible_iff (s : PostSegment) :
    blueskySegmentAdmissible s = true ↔
      ((s.media.filter (fun item => classifyMediaType item.mimeType == MediaKind.other)).length = 0
        ∧ ((s.media.filter (fun item => classifyMediaType item.mimeType == MediaKind.image)).length = 0
            ∨ (s.media.filter (fun item => classifyMediaType item.mimeType == MediaKind.video)).length = 0)
        ∧ (s.media.filter (fun item => classifyMediaType item.mimeType == MediaKind.image)).length ≤ 4
        ∧ (s.media.filter (fun item => classifyMediaType item.mimeType == MediaKind.video)).length ≤ 1
        ∧ ∀ v ∈ s.media.filter (fun item => classifyMediaType item.mimeType == MediaKind.video),
            lowerAscii v.mimeType = "video/mp4") := by
  unfold blueskySegmentAdmissible
  dsimp only
  simp only [Bool.and_eq_true, beq_iff_eq, decide_eq_true_eq, List.all_eq_true,
    Bool.not_and, Bool.or_eq_true, Bool.not_eq_true', Bool.and_eq_false_iff,
    decide_eq_false_iff_not, Nat.not_lt, Nat.le_zero, gt_iff_lt, and_assoc]

/-- One Bluesky segment passes the source checks exactly when it satisfies
the admissibility conditions of the claim. -/
theorem blueskyMediaCheckSegment_ok (i : Nat) (s : PostSegment) :
    exceptOk (blueskyMediaCheckSegment i s) = blueskySegmentAdmissible s := by
  unfold blueskyMediaCheckSegment
  dsimp only
  split_ifs with h1 h2 h3 h4 h5 h6
  · simp only [exceptOk]
    symm
    rw [Bool.eq_false_iff]
    intro hadm
    obtain ⟨ho, hmix, hi, hv, hm⟩ := (blueskySegmentAdmissible_iff s).mp hadm
    omega
  · simp only [exceptOk]
    symm
    rw [Bool.eq_false_iff]
    intro hadm
    obtain ⟨ho, hmix, hi, hv, hm⟩ := (blueskySegmentAdmissible_iff s).mp hadm
    simp only [Bool.and_eq_true, decide_eq_true_eq] at h2
    rcases hmix with h0 | h0 <;> omega
  · simp only [exceptOk]
    symm
    rw [Bool.eq_false_iff]
    intro hadm
    obtain ⟨ho, hmix, hi, hv, hm⟩ := (blueskySegmentAdmissible_iff s).mp hadm
    omega
  · simp only [exceptOk]
    symm
    rw [Bool.eq_false_iff]
    intro hadm
    obtain ⟨ho, hmix, hi, hv, hm⟩ := (blueskySegmentAdmissible_iff s).mp hadm
    omega
  · simp only [exceptOk]
    symm
    rw [Bool.eq_false_iff]
    intro hadm
    obtain ⟨ho, hmix, hi, hv, hm⟩ := (blueskySegmentAdmissible_iff s).mp hadm
    simp only [beq_iff_eq] at h5
    rcases List.length_eq_one.mp h5 with ⟨v0, hv0⟩
    rw [hv0] at h6
    simp only [List.head?_cons, bne_iff_ne, ne_eq] at h6
    exact h6 (hm v0 (hv0 ▸ List.mem_singleton_self v0))
  · simp only [exceptOk]
    symm
    apply (blueskySegmentAdmissible_iff s).mpr
    simp only [Bool.and_eq_true, decide_eq_true_eq, not_and] at h2
    simp only [beq_iff_eq] at h5
    rcases List.length_eq_one.mp h5 with ⟨v0, hv0⟩
    rw [hv0] at h6
    simp only [List.head?_cons, bne_iff_ne, ne_eq, not_not] at h6
    refine ⟨by omega, ?_, by omega, by omega, ?_⟩
    · by_cases himg : (s.media.filter
          (fun item => classifyMediaType item.mimeType == MediaKind.image)).length = 0
      · exact Or.inl himg
      · have := h2 (by omega)
        omega
    · intro v hvmem
      rw [hv0] at hvmem
      rcases List.mem_singleton.mp hvmem with rfl
      exact h6
  · simp only [exceptOk]
    symm
    apply (blueskySegmentAdmissible_iff s).mpr
    simp only [beq_iff_eq] at h5
    have hvid0 : (s.media.filter
        (fun item => classifyMediaType item.mimeType == MediaKind.video)).length = 0 := by
      omega
    refine ⟨by omega, Or.inr hvid0, by omega, by omega, ?_⟩
    intro v hvmem
    rw [List.length_eq_zero] at hvid0
    rw [hvid0] at hvmem
    cases hvmem

/-- C4: Bluesky media validation succeeds exactly when every segment is
admissible: no media outside image/video, no mixed image+video segment, at
most 4 images, at most 1 video, and a lone video must carry the (case
normalized) MIME type video/mp4.  Consequently a segment mixing kinds,
holding 5 images, 2 videos, or a non-mp4 video fails, and a segment with
one mp4 video or 1 to 4 images alone passes. -/
theorem bluesky_media_validation (segments : List PostSegment) :
    exceptOk (validateBlueskyMedia segments)
      = segments.all blueskySegmentAdmissible := by
  unfold validateBlueskyMedia
  suffices h : ∀ n, exceptOk (validateBlueskyMediaFrom n segments)
      = segments.all blueskySegmentAdmissible from h 0
  induction segments with
  | nil =>
    intro n
    simp [validateBlueskyMediaFrom, exceptOk]
  | cons s rest ih =>
    intro n
    rw [List.all_cons, ← blueskyMediaCheckSegment_ok n s]
    show exceptOk (do
        blueskyMediaCheckSegment n s
        validateBlueskyMediaFrom (n + 1) rest) = _
    cases hc : blueskyMediaCheckSegment n s with
    | error e =>
      simp only [hc, exceptOk]
      rfl
    | ok u =>
      cases u
      simp only [hc, exceptOk]
      show exceptOk (validateBlueskyMediaFrom (n + 1) rest) = _
      rw [ih (n + 1)]
      simp

/-- The X length loop reports the first over-limit segment, counting the
one-based index from the start of the walk. -/
theorem validateXLengthFrom_error (n : Nat) (pre : List PostSegment)
    (seg : PostSegment) (post : List PostSegment)
    (hpre : ∀ s ∈ pre, countCodePoints s.text ≤ X_MAX_CHARACTERS)
    (hover : countCodePoints seg.text > X_MAX_CHARACTERS) :
    validateXLengthFrom n (pre ++ seg :: post)
      = .error (xLengthProblem (n + pre.length) (countCodePoints seg.text)) := by
  induction pre generalizing n with
  | nil =>
    simp only [List.nil_append, List.length_nil, Nat.add_zero]
    unfold validateXLengthFrom
    rw [if_pos hover]
  | cons a rest ih =>
    have ha : ¬ countCodePoints a.text > X_MAX_CHARACTERS :=
      Nat.not_lt.mpr (hpre a (List.mem_cons_self a rest))
    show validateXLengthFrom n (a :: (rest ++ seg :: post)) = _
    unfold validateXLengthFrom
    rw [if_neg ha, ih (n + 1) (fun s hs => hpre s (List.mem_cons_of_mem a hs))]
    have harith : n + 1 + rest.length = n + (a :: rest).length := by
      simp [List.length_cons]
      omega
    rw [harith]

/-- The X length loop accepts every list of segments within the limit. -/
theorem validateXLengthFrom_ok (n : Nat) (segments : List PostSegment)
    (h : ∀ s ∈ segments, countCodePoints s.text ≤ X_MAX_CHARACTERS) :
    validateXLengthFrom n segments = .ok () := by
  induction segments generalizing n with
  | nil => rfl
  | cons a rest ih =>
    have ha : ¬ countCodePoints a.text > X_MAX_CHARACTERS :=
      Nat.not_lt.mpr (h a (List.mem_cons_self a rest))
    unfold validateXLengthFrom
    rw [if_neg ha]
    exact ih (n + 1) (fun s hs => h s (List.mem_cons_of_mem a hs))

/-- C5: for a request targeting X whose structural checks pass, the first
segment above 280 code points makes validation fail with the X-length
problem citing that exact count and the 280 limit in its detail text, and
every list of segments within 280 code points passes the X length check.
Counting is per code point (Lean strings are code point sequences, as is
the spread the source takes the length of). -/
theorem x_length_validation
    (request : PublishRequest)
    (mastodonFetch : MastodonTarget → Except HttpProblem MastodonInstanceLimits)
    (tx : XTarget) (hx : request.targets.x = some tx)
    (hstruct : assertNonEmptySegments request.segments = .ok ())
    (pre : List PostSegment) (seg : PostSegment) (post : List PostSegment)
    (hsplit : request.segments = pre ++ seg :: post)
    (hpre : ∀ s ∈ pre, countCodePoints s.text ≤ X_MAX_CHARACTERS)
    (hover : countCodePoints seg.text > X_MAX_CHARACTERS) :
    validate request mastodonFetch
        = .error (xLengthProblem pre.length (countCodePoints seg.text))
      ∧ (xLengthProblem pre.length (countCodePoints seg.text)).detail
          = "Thread segment " ++ toString (pre.length + 1) ++ " has "
            ++ toString (countCodePoints seg.text)
            ++ " characters. This gateway enforces 280 for non-premium X users."
      ∧ ∀ segments, (∀ s ∈ segments, countCodePoints s.text ≤ X_MAX_CHARACTERS) →
          validateXLength segments = .ok () := by
  refine ⟨?_, rfl, fun segments h => validateXLengthFrom_ok 0 segments h⟩
  have hxb : validateXBlock request
      = .error (xLengthProblem pre.length (countCodePoints seg.text)) := by
    unfold validateXBlock
    rw [hx]
    unfold validateXLength
    rw [hsplit]
    have := validateXLengthFrom_error 0 pre seg post hpre hover
    rw [this]
    simp
  unfold validate
  rw [hstruct, hxb]

set_option maxRecDepth 4096 in
/-- Witness for C5: a single 281-code-point segment targeted at X fails
with the X-length problem citing 281, and a two-code-point segment list
passes the X length check. -/
theorem x_length_validation_witness :
    validate overlongRequest sampleFetch
        = .error (xLengthProblem 0 (countCodePoints overlongText))
      ∧ validateXLength [{ text := "ok", media := [] }] = .ok () :=
  ⟨(x_length_validation overlongRequest sampleFetch { authToken := "sample-token" }
      (by decide) (by decide) [] { text := overlongText, media := [] } [] rfl
      (by intro s hs; cases hs) (by decide)).1,
    (x_length_validation overlongRequest sampleFetch { authToken := "sample-token" }
      (by decide) (by decide) [] { text := overlongText, media := [] } [] rfl
      (by intro s hs; cases hs) (by decide)).2.2 _
      (by intro s hs; rcases List.mem_singleton.mp hs with rfl; decide)⟩

/-- An astral-plane emoji counts as a single code point. -/
theorem countCodePoints_astral : countCodePoints "😀" = 1 := by decide

/-- Updating a present record stores the mutated record under the same
key. -/
theorem Store.update_found (store : Store) (id : String)
    (mutate : StoredJob → StoredJob) (current : StoredJob)
    (h : Store.get store id = some current) :
    Store.update store id mutate
      = (fun key => if key == id then some (mutate current) else store key,
          some (mutate current)) := by
  unfold Store.update
  rw [h]

/-- A store update whose mutator preserves the job frame preserves the
frame of every record. -/
theorem Store.update_preserves_frame (store : Store) (id : String)
    (mutate : StoredJob → StoredJob)
    (hmutate : ∀ job, jobFrame (mutate job) = jobFrame job) (key : String) :
    Option.map jobFrame (Store.get (Store.update store id mutate).1 key)
      = Option.map jobFrame (Store.get store key) := by
  cases h : Store.get store id with
  | none =>
    unfold Store.update
    rw [h]
  | some current =>
    rw [Store.update_found store id mutate current h]
    show Option.map jobFrame (if key == id then some (mutate current) else store key)
      = Option.map jobFrame (Store.get store key)
    by_cases hkey : key = id
    · subst hkey
      rw [if_pos (by simp)]
      show _ = Option.map jobFrame (Store.get store key)
      rw [h]
      simp [hmutate current]
    · rw [if_neg (by simpa using hkey)]
      rfl

/-- C7: cancel succeeds only from `scheduled`, moving the job to
`cancelled` with `completedAt` set and removing its media directory; on a
job in any other status it fails with the conflict problem naming the
current status, on an unknown id it fails with not-found, and cancelling
the same job again fails with the conflict problem naming `cancelled`. -/
theorem cancel_state_machine (store : Store) (jobId : String) (now later : String) :
    (Store.get store jobId = none →
      cancel store jobId now = .error (jobNotFoundProblem jobId))
    ∧ (∀ job, Store.get store jobId = some job → job.status ≠ .scheduled →
        cancel store jobId now = .error (cancelConflictProblem jobId job.status)
          ∧ (cancelConflictProblem jobId job.status).detail
              = "Job " ++ jobId ++ " is " ++ job.status.str
                ++ " and can no longer be cancelled")
    ∧ (∀ job, Store.get store jobId = some job → job.status = .scheduled →
        ∃ store1,
          cancel store jobId now
            = .ok (store1, [jobId],
                toJobSummary { job with status := .cancelled, completedAt := some now })
          ∧ Store.get store1 jobId
              = some { job with status := .cancelled, completedAt := some now }
          ∧ cancel store1 jobId later
              = .error (cancelConflictProblem jobId .cancelled)) := by
  refine ⟨?_, ?_, ?_⟩
  · intro h
    unfold cancel
    rw [h]
  · intro job hget hstat
    refine ⟨?_, rfl⟩
    unfold cancel
    rw [hget]
    show (if (job.status != JobStatus.scheduled) = true then _ else _) = _
    rw [if_pos (by simpa using hstat)]
  · intro job hget hstat
    refine ⟨fun key => if key == jobId
        then some { job with status := .cancelled, completedAt := some now }
        else store key, ?_, ?_, ?_⟩
    · unfold cancel
      rw [hget]
      show (if (job.status != JobStatus.scheduled) = true then _ else _) = _
      rw [if_neg (by simp [hstat])]
      rw [Store.update_found store jobId _ job hget]
    · show (if (jobId == jobId) = true then _ else _) = _
      rw [if_pos (by simp)]
    · unfold cancel
      have hget1 : Store.get (fun key => if key == jobId
          then some { job with status := .cancelled, completedAt := some now }
          else store key) jobId
          = some { job with status := .cancelled, completedAt := some now } := by
        show (if (jobId == jobId) = true then _ else _) = _
        rw [if_pos (by simp)]
      rw [hget1]
      rfl

/-- Witness for C7: a store with one scheduled job; the unknown id, the
successful cancel, and the repeated cancel. -/
theorem cancel_state_machine_witness :
    cancel sampleStore "missing" "2026-01-01T01:00:00Z"
        = .error (jobNotFoundProblem "missing")
      ∧ ∃ store1,
          cancel sampleStore "job-1" "2026-01-01T01:00:00Z"
            = .ok (store1, ["job-1"],
                toJobSummary { sampleJob with
                  status := .cancelled
                  completedAt := some "2026-01-01T01:00:00Z" })
          ∧ Store.get store1 "job-1"
              = some { sampleJob with
                  status := .cancelled
                  completedAt := some "2026-01-01T01:00:00Z" }
          ∧ cancel store1 "job-1" "2026-01-01T02:00:00Z"
              = .error (cancelConflictProblem "job-1" .cancelled) :=
  ⟨(cancel_state_machine sampleStore "missing" "2026-01-01T01:00:00Z"
      "2026-01-01T02:00:00Z").1 (by decide),
    (cancel_state_machine sampleStore "job-1" "2026-01-01T01:00:00Z"
      "2026-01-01T02:00:00Z").2.2 sampleJob (by decide) (by decide)⟩

/-- C9: both store updates performed by processJob leave every record's
id, createdAt, runAt, encryptedPayload and media reference list unchanged;
only status, attemptCount, completedAt, deliveries and lastError are
touched. -/
theorem processJob_frame (store : Store) (job : StoredJob)
    (runResult : Except String CrosspostDispatchResult) (now : String) (key : String) :
    Option.map jobFrame (Store.get (processJob store job runResult now).1 key)
      = Option.map jobFrame (Store.get store key) := by
  have h1 := Store.update_preserves_frame store job.id
    (fun current =>
      { current with status := .running, attemptCount := current.attemptCount + 1 })
    (fun j => rfl) key
  cases runResult with
  | ok result =>
    have h2 := Store.update_preserves_frame
      (Store.update store job.id (fun current =>
        { current with status := .running, attemptCount := current.attemptCount + 1 })).1
      job.id
      (fun current =>
        { current with
            status := if result.overall == "success" then JobStatus.succeeded
              else JobStatus.partialSuccess
            completedAt := some now
            deliveries := some result.deliveries
            lastError := none })
      (fun j => rfl) key
    have hre : (processJob store job (.ok result) now).1
        = (Store.update (Store.update store job.id (fun current =>
            { current with status := .running, attemptCount := current.attemptCount + 1 })).1
            job.id (fun current =>
              { current with
                  status := if result.overall == "success" then JobStatus.succeeded
                    else JobStatus.partialSuccess
                  completedAt := some now
                  deliveries := some result.deliveries
                  lastError := none })).1 := rfl
    rw [hre, h2, h1]
  | error message =>
    have h2 := Store.update_preserves_frame
      (Store.update store job.id (fun current =>
        { current with status := .running, attemptCount := current.attemptCount + 1 })).1
      job.id
      (fun current =>
        { current with
            status := JobStatus.failed
            completedAt := some now
            lastError := some message })
      (fun j => rfl) key
    have hre : (processJob store job (.error message) now).1
        = (Store.update (Store.update store job.id (fun current =>
            { current with status := .running, attemptCount := current.attemptCount + 1 })).1
            job.id (fun current =>
              { current with
                  status := JobStatus.failed
                  completedAt := some now
                  lastError := some message })).1 := rfl
    rw [hre, h2, h1]

/-- C3, behavior at the failing input: a scheduled job whose execution
throws reaches the terminal status `failed`, yet processJob performs no
media cleanup (the returned cleanup list is empty), while the success path
cleans up and cancel cleans up.  The catch arm of the source stores
`failed` with `lastError` but never calls cleanupMedia. -/
theorem processJob_failure_keeps_media :
    (processJob sampleStore sampleJob (.error "dispatch failed")
        "2026-01-02T00:00:01Z").2 = []
      ∧ Option.map (fun j => j.status)
          (Store.get (processJob sampleStore sampleJob (.error "dispatch failed")
            "2026-01-02T00:00:01Z").1 "job-1") = some .failed
      ∧ Option.map (fun j => j.lastError)
          (Store.get (processJob sampleStore sampleJob (.error "dispatch failed")
            "2026-01-02T00:00:01Z").1 "job-1") = some (some "dispatch failed") := by
  refine ⟨rfl, rfl, rfl⟩

/-- Without a fresh cache hit the lookup runs the fetch path. -/
theorem fetchMastodonInstanceLimits_miss
    (cache : List (String × CacheEntry)) (now : Int) (fetchedAtIso : String)
    (instanceUrl : String) (outcome : InstanceFetchOutcome)
    (hmiss : ∀ k entry,
      cache.find? (fun e => e.1 == normalizeMastodonInstanceUrl instanceUrl)
          = some (k, entry) → entry.expiresAt ≤ now) :
    fetchMastodonInstanceLimits cache now fetchedAtIso instanceUrl outcome
      = processInstanceOutcome cache now fetchedAtIso
          (normalizeMastodonInstanceUrl instanceUrl) outcome := by
  simp only [fetchMastodonInstanceLimits]
  cases hfind : cache.find? (fun e => e.1 == normalizeMastodonInstanceUrl instanceUrl) with
  | none => rfl
  | some pair =>
    obtain ⟨k, entry⟩ := pair
    have hle := hmiss k entry hfind
    dsimp only
    rw [if_neg (by omega)]

/-- C8 amended: when the cache has no fresh entry, a network failure yields
the unreachable problem, a non-2xx response yields the instance-error
problem, and a 2xx response missing the whole configuration.statuses block
yields the configuration-missing problem — the unreachable class is
distinct from the other two; but a 2xx response whose statuses block is
present never fails: limit fields missing inside it fall back to the
defaults (500 characters, 4 attachments) and limits are returned. -/
theorem capability_lookup_error_classes
    (cache : List (String × CacheEntry)) (now : Int) (fetchedAtIso : String)
    (instanceUrl : String)
    (hmiss : ∀ k entry,
      cache.find? (fun e => e.1 == normalizeMastodonInstanceUrl instanceUrl)
          = some (k, entry) → entry.expiresAt ≤ now) :
    (∀ message,
      fetchMastodonInstanceLimits cache now fetchedAtIso instanceUrl
          (.networkError message)
        = .error (mastodonUnreachableProblem
            (normalizeMastodonInstanceUrl instanceUrl) message))
    ∧ (∀ status payload,
      fetchMastodonInstanceLimits cache now fetchedAtIso instanceUrl
          (.response false status payload)
        = .error (mastodonInstanceErrorProblem
            (normalizeMastodonInstanceUrl instanceUrl) status))
    ∧ (∀ status mediaCfg,
      fetchMastodonInstanceLimits cache now fetchedAtIso instanceUrl
          (.response true status { statuses := none, mediaAttachments := mediaCfg })
        = .error (mastodonInvalidProblem (normalizeMastodonInstanceUrl instanceUrl)))
    ∧ (∀ status statusConfig mediaCfg, ∃ cache1 limits,
      fetchMastodonInstanceLimits cache now fetchedAtIso instanceUrl
          (.response true status
            { statuses := some statusConfig, mediaAttachments := mediaCfg })
        = .ok (cache1, limits)
        ∧ limits.maxCharacters = toInteger statusConfig.maxCharacters 500
        ∧ limits.maxMediaAttachments = toInteger statusConfig.maxMediaAttachments 4)
    ∧ (∀ message status,
      (mastodonUnreachableProblem (normalizeMastodonInstanceUrl instanceUrl) message).type
          ≠ (mastodonInstanceErrorProblem
              (normalizeMastodonInstanceUrl instanceUrl) status).type
        ∧ (mastodonUnreachableProblem
              (normalizeMastodonInstanceUrl instanceUrl) message).type
          ≠ (mastodonInvalidProblem (normalizeMastodonInstanceUrl instanceUrl)).type) := by
  refine ⟨?_, ?_, ?_, ?_, ?_⟩
  · intro message
    rw [fetchMastodonInstanceLimits_miss cache now fetchedAtIso instanceUrl _ hmiss]
    rfl
  · intro status payload
    rw [fetchMastodonInstanceLimits_miss cache now fetchedAtIso instanceUrl _ hmiss]
    rfl
  · intro status mediaCfg
    rw [fetchMastodonInstanceLimits_miss cache now fetchedAtIso instanceUrl _ hmiss]
    rfl
  · intro status statusConfig mediaCfg
    rw [fetchMastodonInstanceLimits_miss cache now fetchedAtIso instanceUrl _ hmiss]
    exact ⟨_, _, rfl, rfl, rfl⟩
  · intro message status
    constructor
    · show ("https://api.crosspost.local/problems/mastodon-instance-unreachable" : String)
        ≠ "https://api.crosspost.local/problems/mastodon-instance-error"
      decide
    · show ("https://api.crosspost.local/problems/mastodon-instance-unreachable" : String)
        ≠ "https://api.crosspost.local/problems/mastodon-instance-invalid"
      decide

/-- Witness for C8 (amended): on an empty cache, a network failure maps to
the unreachable problem and a 2xx response with an empty statuses block
returns limits with the defaults. -/
theorem capability_lookup_error_classes_witness :
    fetchMastodonInstanceLimits [] 0 "2026-01-01T00:00:00.000Z"
        "https://mastodon.example" (.networkError (some "connect ECONNREFUSED"))
      = .error (mastodonUnreachableProblem "https://mastodon.example"
          (some "connect ECONNREFUSED")) :=
  (capability_lookup_error_classes [] 0 "2026-01-01T00:00:00.000Z"
      "https://mastodon.example" (fun k entry h => by cases h)).1
    (some "connect ECONNREFUSED")

/-- C8 counterexample to the claim as stated: a 2xx response whose
configuration.statuses block is present but carries neither maxCharacters
nor maxMediaAttachments does not make the lookup fail — it returns
MastodonLimits with the 500 and 4 defaults. -/
theorem capability_missing_limit_fields_returns_limits :
    ∃ cache1 limits,
      fetchMastodonInstanceLimits [] 0 "2026-01-01T00:00:00.000Z"
          "https://mastodon.example" (.response true 200 emptyStatusesPayload)
        = .ok (cache1, limits)
        ∧ limits.maxCharacters = 500
        ∧ limits.maxMediaAttachments = 4 := by
  refine ⟨_, _, rfl, rfl, rfl⟩

/-! ### Base64url codec lemmas -/

/-- Decoding inverts the alphabet map on sextets. -/
theorem b64DecEnc : ∀ n, n < 64 → b64DecChar (b64EncChar n) = some n := by decide

/-- The alphabet never produces the dot separator. -/
theorem b64EncChar_ne_dot (n : Nat) : b64EncChar n ≠ DOT := by
  unfold b64EncChar DOT
  split_ifs <;> omega

/-- A decoded character is in the alphabet image and below 64. -/
theorem b64DecChar_some {c n : Nat} (h : b64DecChar c = some n) :
    b64EncChar n = c ∧ n < 64 := by
  unfold b64DecChar at h
  unfold b64EncChar
  split_ifs at h <;> cases h <;> (constructor; (split_ifs <;> omega); omega)

/-- Strict decoding inverts encoding on byte lists. -/
theorem b64_roundtrip : ∀ bytes, ValidBytes bytes → b64Decode (b64Encode bytes) = some bytes
  | [], _ => rfl
  | [b1], h => by
    have h1 : b1 < 256 := h b1 (by simp)
    show b64Decode [b64EncChar (b1 / 4), b64EncChar (b1 % 4 * 16)] = some [b1]
    rw [b64Decode, b64DecEnc (b1 / 4) (by omega), b64DecEnc (b1 % 4 * 16) (by omega)]
    dsimp only
    rw [if_pos (by omega)]
    have : b1 / 4 * 4 + b1 % 4 * 16 / 16 = b1 := by omega
    rw [this]
  | [b1, b2], h => by
    have h1 : b1 < 256 := h b1 (by simp)
    have h2 : b2 < 256 := h b2 (by simp)
    show b64Decode [b64EncChar (b1 / 4), b64EncChar (b1 % 4 * 16 + b2 / 16),
        b64EncChar (b2 % 16 * 4)] = some [b1, b2]
    rw [b64Decode, b64DecEnc (b1 / 4) (by omega), b64DecEnc (b1 % 4 * 16 + b2 / 16) (by omega),
      b64DecEnc (b2 % 16 * 4) (by omega)]
    dsimp only
    rw [if_pos (by omega)]
    have e1 : b1 / 4 * 4 + (b1 % 4 * 16 + b2 / 16) / 16 = b1 := by omega
    have e2 : (b1 % 4 * 16 + b2 / 16) % 16 * 16 + b2 % 16 * 4 / 4 = b2 := by omega
    rw [e1, e2]
  | b1 :: b2 :: b3 :: rest, h => by
    have h1 : b1 < 256 := h b1 (by simp)
    have h2 : b2 < 256 := h b2 (by simp)
    have h3 : b3 < 256 := h b3 (by simp)
    have ih := b64_roundtrip rest (fun b hb => h b (by simp [hb]))
    show b64Decode (b64EncChar (b1 / 4) :: b64EncChar (b1 % 4 * 16 + b2 / 16)
        :: b64EncChar (b2 % 16 * 4 + b3 / 64) :: b64EncChar (b3 % 64) :: b64Encode rest)
      = some (b1 :: b2 :: b3 :: rest)
    rw [b64Decode, b64DecEnc (b1 / 4) (by omega), b64DecEnc (b1 % 4 * 16 + b2 / 16) (by omega),
      b64DecEnc (b2 % 16 * 4 + b3 / 64) (by omega), b64DecEnc (b3 % 64) (by omega), ih]
    dsimp only
    have e1 : b1 / 4 * 4 + (b1 % 4 * 16 + b2 / 16) / 16 = b1 := by omega
    have e2 : (b1 % 4 * 16 + b2 / 16) % 16 * 16 + (b2 % 16 * 4 + b3 / 64) / 4 = b2 := by omega
    have e3 : (b2 % 16 * 4 + b3 / 64) % 4 * 64 + b3 % 64 = b3 := by omega
    rw [e1, e2, e3]

/-- Length of an encoding, as a closed formula. -/
theorem b64Encode_length : ∀ bytes, (b64Encode bytes).length = (4 * bytes.length + 2) / 3
  | [] => rfl
  | [b] => by
    show (b64EncChar (b / 4) :: b64EncChar (b % 4 * 16) :: []).length = (4 * [b].length + 2) / 3
    simp
  | [b1, b2] => by
    show (b64EncChar (b1 / 4) :: b64EncChar (b1 % 4 * 16 + b2 / 16)
        :: b64EncChar (b2 % 16 * 4) :: []).length = (4 * [b1, b2].length + 2) / 3
    simp
  | b1 :: b2 :: b3 :: rest => by
    show (b64EncChar (b1 / 4) :: b64EncChar (b1 % 4 * 16 + b2 / 16)
        :: b64EncChar (b2 % 16 * 4 + b3 / 64) :: b64EncChar (b3 % 64) :: b64Encode rest).length
      = (4 * (b1 :: b2 :: b3 :: rest).length + 2) / 3
    have ih := b64Encode_length rest
    simp only [List.length_cons, ih]
    omega

/-- Strict decoding succeeds only on canonical encodings of byte lists. -/
theorem b64Decode_canonical : ∀ s bytes, b64Decode s = some bytes →
    s = b64Encode bytes ∧ ValidBytes bytes
  | [], bytes, h => by
    cases h
    exact ⟨rfl, by intro b hb; cases hb⟩
  | [c], bytes, h => by cases h
  | [c1, c2], bytes, h => by
    rw [b64Decode] at h
    cases hd1 : b64DecChar c1 with
    | none => rw [hd1] at h; cases h
    | some s1 =>
      cases hd2 : b64DecChar c2 with
      | none => rw [hd1, hd2] at h; cases h
      | some s2 =>
        rw [hd1, hd2] at h
        dsimp only at h
        by_cases hpad : s2 % 16 = 0
        · rw [if_pos hpad] at h
          cases h
          obtain ⟨he1, hb1⟩ := b64DecChar_some hd1
          obtain ⟨he2, hb2⟩ := b64DecChar_some hd2
          constructor
          · show [c1, c2] = [b64EncChar ((s1 * 4 + s2 / 16) / 4),
              b64EncChar ((s1 * 4 + s2 / 16) % 4 * 16)]
            have e1 : (s1 * 4 + s2 / 16) / 4 = s1 := by omega
            have e2 : (s1 * 4 + s2 / 16) % 4 * 16 = s2 := by omega
            rw [e1, e2, he1, he2]
          · intro b hb
            rcases List.mem_singleton.mp hb with rfl
            omega
        · rw [if_neg hpad] at h
          cases h
  | [c1, c2, c3], bytes, h => by
    rw [b64Decode] at h
    cases hd1 : b64DecChar c1 with
    | none => rw [hd1] at h; cases h
    | some s1 =>
      cases hd2 : b64DecChar c2 with
      | none => rw [hd1, hd2] at h; cases h
      | some s2 =>
        cases hd3 : b64DecChar c3 with
        | none => rw [hd1, hd2, hd3] at h; cases h
        | some s3 =>
          rw [hd1, hd2, hd3] at h
          dsimp only at h
          by_cases hpad : s3 % 4 = 0
          · rw [if_pos hpad] at h
            cases h
            obtain ⟨he1, hb1⟩ := b64DecChar_some hd1
            obtain ⟨he2, hb2⟩ := b64DecChar_some hd2
            obtain ⟨he3, hb3⟩ := b64DecChar_some hd3
            constructor
            · show [c1, c2, c3] = [b64EncChar ((s1 * 4 + s2 / 16) / 4),
                b64EncChar ((s1 * 4 + s2 / 16) % 4 * 16
                  + (s2 % 16 * 16 + s3 / 4) / 16),
                b64EncChar ((s2 % 16 * 16 + s3 / 4) % 16 * 4)]
              have e1 : (s1 * 4 + s2 / 16) / 4 = s1 := by omega
              have e2 : (s1 * 4 + s2 / 16) % 4 * 16 + (s2 % 16 * 16 + s3 / 4) / 16 = s2 := by
                omega
              have e3 : (s2 % 16 * 16 + s3 / 4) % 16 * 4 = s3 := by omega
              rw [e1, e2, e3, he1, he2, he3]
            · intro b hb
              simp only [List.mem_cons, List.not_mem_nil, or_false] at hb
              rcases hb with rfl | rfl
              · omega
              · omega
          · rw [if_neg hpad] at h
            cases h
  | c1 :: c2 :: c3 :: c4 :: rest, bytes, h => by
    rw [b64Decode] at h
    cases hd1 : b64DecChar c1 with
    | none => rw [hd1] at h; cases h
    | some s1 =>
      cases hd2 : b64DecChar c2 with
      | none => rw [hd1, hd2] at h; cases h
      | some s2 =>
        cases hd3 : b64DecChar c3 with
        | none => rw [hd1, hd2, hd3] at h; cases h
        | some s3 =>
          cases hd4 : b64DecChar c4 with
          | none => rw [hd1, hd2, hd3, hd4] at h; cases h
          | some s4 =>
            cases hdr : b64Decode rest with
            | none => rw [hd1, hd2, hd3, hd4, hdr] at h; cases h
            | some tail =>
              rw [hd1, hd2, hd3, hd4, hdr] at h
              dsimp only at h
              cases h
              obtain ⟨he1, hb1⟩ := b64DecChar_some hd1
              obtain ⟨he2, hb2⟩ := b64DecChar_some hd2
              obtain ⟨he3, hb3⟩ := b64DecChar_some hd3
              obtain ⟨he4, hb4⟩ := b64DecChar_some hd4
              obtain ⟨ihs, ihv⟩ := b64Decode_canonical rest tail hdr
              constructor
              · show c1 :: c2 :: c3 :: c4 :: rest
                  = b64Encode ((s1 * 4 + s2 / 16) :: (s2 % 16 * 16 + s3 / 4)
                      :: (s3 % 4 * 64 + s4) :: tail)
                rw [b64Encode]
                have e1 : (s1 * 4 + s2 / 16) / 4 = s1 := by omega
                have e2 : (s1 * 4 + s2 / 16) % 4 * 16 + (s2 % 16 * 16 + s3 / 4) / 16 = s2 := by
                  omega
                have e3 : (s2 % 16 * 16 + s3 / 4) % 16 * 4 + (s3 % 4 * 64 + s4) / 64 = s3 := by
                  omega
                have e4 : (s3 % 4 * 64 + s4) % 64 = s4 := by omega
                rw [e1, e2, e3, e4, he1, he2, he3, he4, ← ihs]
              · intro b hb
                simp only [List.mem_cons] at hb
                rcases hb with rfl | rfl | rfl | hb
                · omega
                · omega
                · omega
                · exact ihv b hb

/-- Valid encodings are injective. -/
theorem b64Encode_inj {a b : List Nat} (ha : ValidBytes a) (hb : ValidBytes b)
    (h : b64Encode a = b64Encode b) : a = b := by
  have := b64_roundtrip a ha
  rw [h, b64_roundtrip b hb] at this
  exact (Option.some.injEq _ _ ▸ this).symm

/-- The alphabet map is injective on sextets. -/
theorem b64EncChar_inj2 : ∀ x, x < 64 → ∀ y, y < 64 → b64EncChar x = b64EncChar y → x = y := by
  decide

/-- A valid encoding that is a list prefix of another valid encoding comes
from a byte prefix. -/
theorem b64Encode_prefix : ∀ (a b r : List Nat), ValidBytes a → ValidBytes b →
    b64Encode a ++ r = b64Encode b → a = b.take a.length
  | [], _, _, _, _, _ => by simp
  | [a1], b, r, ha, hb, h => by
    have ha1 : a1 < 256 := ha a1 (by simp)
    match b with
    | [] => simp [b64Encode] at h
    | [b1] =>
      have hb1 : b1 < 256 := hb b1 (by simp)
      simp only [b64Encode, List.cons_append, List.nil_append, List.cons.injEq] at h
      have e1 := b64EncChar_inj2 _ (by omega) _ (by omega) h.1
      have e2 := b64EncChar_inj2 _ (by omega) _ (by omega) h.2.1
      have : a1 = b1 := by omega
      simp [this]
    | [b1, b2] =>
      have hb1 : b1 < 256 := hb b1 (by simp)
      have hb2 : b2 < 256 := hb b2 (by simp)
      simp only [b64Encode, List.cons_append, List.nil_append, List.cons.injEq] at h
      have e1 := b64EncChar_inj2 _ (by omega) _ (by omega) h.1
      have e2 := b64EncChar_inj2 _ (by omega) _ (by omega) h.2.1
      have : a1 = b1 := by omega
      simp [this]
    | b1 :: b2 :: b3 :: brest =>
      have hb1 : b1 < 256 := hb b1 (by simp)
      have hb2 : b2 < 256 := hb b2 (by simp)
      have hb3 : b3 < 256 := hb b3 (by simp)
      simp only [b64Encode, List.cons_append, List.nil_append, List.cons.injEq] at h
      have e1 := b64EncChar_inj2 _ (by omega) _ (by omega) h.1
      have e2 := b64EncChar_inj2 _ (by omega) _ (by omega) h.2.1
      have : a1 = b1 := by omega
      simp [this]
  | [a1, a2], b, r, ha, hb, h => by
    have ha1 : a1 < 256 := ha a1 (by simp)
    have ha2 : a2 < 256 := ha a2 (by simp)
    match b with
    | [] => simp [b64Encode] at h
    | [b1] =>
      have hlen := congrArg List.length h
      simp only [List.length_append, b64Encode_length] at hlen
      simp only [List.length_cons, List.length_nil] at hlen
      omega
    | [b1, b2] =>
      have hb1 : b1 < 256 := hb b1 (by simp)
      have hb2 : b2 < 256 := hb b2 (by simp)
      simp only [b64Encode, List.cons_append, List.nil_append, List.cons.injEq] at h
      have e1 := b64EncChar_inj2 _ (by omega) _ (by omega) h.1
      have e2 := b64EncChar_inj2 _ (by omega) _ (by omega) h.2.1
      have e3 := b64EncChar_inj2 _ (by omega) _ (by omega) h.2.2.1
      have h1 : a1 = b1 := by omega
      have h2 : a2 = b2 := by omega
      simp [h1, h2]
    | b1 :: b2 :: b3 :: brest =>
      have hb1 : b1 < 256 := hb b1 (by simp)
      have hb2 : b2 < 256 := hb b2 (by simp)
      have hb3 : b3 < 256 := hb b3 (by simp)
      simp only [b64Encode, List.cons_append, List.nil_append, List.cons.injEq] at h
      have e1 := b64EncChar_inj2 _ (by omega) _ (by omega) h.1
      have e2 := b64EncChar_inj2 _ (by omega) _ (by omega) h.2.1
      have e3 := b64EncChar_inj2 _ (by omega) _ (by omega) h.2.2.1
      have h1 : a1 = b1 := by omega
      have h2 : a2 = b2 := by omega
      simp [h1, h2]
  | a1 :: a2 :: a3 :: arest, b, r, ha, hb, h => by
    have ha1 : a1 < 256 := ha a1 (by simp)
    have ha2 : a2 < 256 := ha a2 (by simp)
    have ha3 : a3 < 256 := ha a3 (by simp)
    match b with
    | [] =>
      have hlen := congrArg List.length h
      simp only [List.length_append, b64Encode_length] at hlen
      simp only [List.length_cons, List.length_nil] at hlen
      omega
    | [b1] =>
      have hlen := congrArg List.length h
      simp only [List.length_append, b64Encode_length] at hlen
      simp only [List.length_cons, List.length_nil] at hlen
      omega
    | [b1, b2] =>
      have hlen := congrArg List.length h
      simp only [List.length_append, b64Encode_length] at hlen
      simp only [List.length_cons, List.length_nil] at hlen
      omega
    | b1 :: b2 :: b3 :: brest =>
      have hb1 : b1 < 256 := hb b1 (by simp)
      have hb2 : b2 < 256 := hb b2 (by simp)
      have hb3 : b3 < 256 := hb b3 (by simp)
      simp only [b64Encode, List.cons_append, List.cons.injEq] at h
      have e1 := b64EncChar_inj2 _ (by omega) _ (by omega) h.1
      have e2 := b64EncChar_inj2 _ (by omega) _ (by omega) h.2.1
      have e3 := b64EncChar_inj2 _ (by omega) _ (by omega) h.2.2.1
      have e4 := b64EncChar_inj2 _ (by omega) _ (by omega) h.2.2.2.1
      have h3 : a3 = b3 := by omega
      have h2 : a2 = b2 := by omega
      have h1 : a1 = b1 := by omega
      have ih := b64Encode_prefix arest brest r
        (fun x hx => ha x (by simp [hx])) (fun x hx => hb x (by simp [hx]))
        h.2.2.2.2
      simp only [List.length_cons, List.take_succ_cons, List.cons.injEq]
      exact ⟨h1, h2, h3, ih⟩

/-! ### Dot splitting and dot freedom -/

/-- Splitting never yields an empty component list. -/
theorem splitOnDot_ne_nil : ∀ l, splitOnDot l ≠ []
  | [] => by simp [splitOnDot]
  | b :: rest => by
    unfold splitOnDot
    split_ifs
    · simp
    · cases hs : splitOnDot rest with
      | nil => simp
      | cons head tail => simp

/-- Splitting a dot-free list yields that single component. -/
theorem splitOnDot_dotfree : ∀ l, (∀ c ∈ l, c ≠ DOT) → splitOnDot l = [l]
  | [], _ => rfl
  | b :: rest, h => by
    unfold splitOnDot
    rw [if_neg (h b (by simp))]
    rw [splitOnDot_dotfree rest (fun c hc => h c (by simp [hc]))]

/-- Splitting peels a dot-free component at a dot. -/
theorem splitOnDot_append_dot : ∀ l r, (∀ c ∈ l, c ≠ DOT) →
    splitOnDot (l ++ DOT :: r) = l :: splitOnDot r
  | [], r, _ => by
    simp only [List.nil_append]
    rw [splitOnDot, if_pos rfl]
  | b :: rest, r, h => by
    show splitOnDot (b :: (rest ++ DOT :: r)) = _
    rw [splitOnDot, if_neg (h b (by simp))]
    rw [splitOnDot_append_dot rest r (fun c hc => h c (by simp [hc]))]

/-- Every character of an encoding is an alphabet character. -/
theorem mem_b64Encode : ∀ l c, c ∈ b64Encode l → ∃ n, c = b64EncChar n
  | [], c, h => by cases h
  | [b1], c, h => by
    simp only [b64Encode, List.mem_cons, List.not_mem_nil, or_false] at h
    rcases h with rfl | rfl
    · exact ⟨_, rfl⟩
    · exact ⟨_, rfl⟩
  | [b1, b2], c, h => by
    simp only [b64Encode, List.mem_cons, List.not_mem_nil, or_false] at h
    rcases h with rfl | rfl | rfl
    · exact ⟨_, rfl⟩
    · exact ⟨_, rfl⟩
    · exact ⟨_, rfl⟩
  | b1 :: b2 :: b3 :: rest, c, h => by
    simp only [b64Encode, List.mem_cons] at h
    rcases h with rfl | rfl | rfl | rfl | h
    · exact ⟨_, rfl⟩
    · exact ⟨_, rfl⟩
    · exact ⟨_, rfl⟩
    · exact ⟨_, rfl⟩
    · exact mem_b64Encode rest c h

/-- Encodings are dot-free. -/
theorem b64Encode_dotfree (l : List Nat) : ∀ c ∈ b64Encode l, c ≠ DOT := by
  intro c hc
  rcases mem_b64Encode l c hc with ⟨n, rfl⟩
  exact b64EncChar_ne_dot n

/-! ### Idealized cipher lemmas -/

/-- Masking preserves length. -/
theorem gcmMaskFrom_length (key iv : List Nat) :
    ∀ i l, (gcmMaskFrom key iv i l).length = l.length
  | _, [] => rfl
  | i, b :: rest => by
    show (_ :: gcmMaskFrom key iv (i + 1) rest).length = _
    simp [gcmMaskFrom_length key iv (i + 1) rest]

/-- Masked bytes are bytes. -/
theorem gcmMaskFrom_valid (key iv : List Nat) :
    ∀ i l, ValidBytes (gcmMaskFrom key iv i l)
  | _, [] => by intro b hb; cases hb
  | i, b :: rest => by
    intro x hx
    simp only [gcmMaskFrom, List.mem_cons] at hx
    rcases hx with rfl | hx
    · omega
    · exact gcmMaskFrom_valid key iv (i + 1) rest x hx

/-- Unmasking inverts masking on byte lists. -/
theorem gcmUnmask_mask (key iv : List Nat) :
    ∀ i l, ValidBytes l → gcmUnmaskFrom key iv i (gcmMaskFrom key iv i l) = l
  | _, [], _ => rfl
  | i, b :: rest, h => by
    have hb : b < 256 := h b (by simp)
    show ((b + keyStreamAt key iv i) % 256 + 256 - keyStreamAt key iv i % 256) % 256
        :: gcmUnmaskFrom key iv (i + 1) (gcmMaskFrom key iv (i + 1) rest) = b :: rest
    rw [gcmUnmask_mask key iv (i + 1) rest (fun x hx => h x (by simp [hx]))]
    have : ((b + keyStreamAt key iv i) % 256 + 256 - keyStreamAt key iv i % 256) % 256 = b := by
      omega
    rw [this]

/-- Unary length framing is self-delimiting. -/
theorem unary_append_inj : ∀ m n (x y : List Nat),
    unary m ++ x = unary n ++ y → m = n ∧ x = y
  | 0, 0, x, y, h => by
    simp only [unary, List.replicate_zero, List.nil_append, List.cons_append] at h
    exact ⟨rfl, by simpa using h⟩
  | 0, n + 1, x, y, h => by
    simp only [unary, List.replicate_zero, List.replicate_succ, List.nil_append,
      List.cons_append, List.cons.injEq] at h
    omega
  | m + 1, 0, x, y, h => by
    simp only [unary, List.replicate_zero, List.replicate_succ, List.nil_append,
      List.cons_append, List.cons.injEq] at h
    omega
  | m + 1, n + 1, x, y, h => by
    simp only [unary, List.replicate_succ, List.cons_append, List.cons.injEq] at h
    have := unary_append_inj m n x y (by
      simp only [unary]
      exact h.2)
    exact ⟨by omega, this.2⟩

/-- The idealized tag determines nonce, ciphertext and any residue: a tag
with the same key prefix-matching another forces equal components and an
empty residue. -/
theorem gcmTag_append_inj (key iv1 c1 iv2 c2 d : List Nat)
    (h : gcmTag key iv1 c1 ++ d = gcmTag key iv2 c2) :
    iv1 = iv2 ∧ c1 = c2 ∧ d = [] := by
  unfold gcmTag at h
  simp only [List.append_assoc] at h
  have h1 := List.append_cancel_left h
  obtain ⟨hiv, h2⟩ := unary_append_inj iv1.length iv2.length _ _ h1
  obtain ⟨hct, h3⟩ := unary_append_inj c1.length c2.length _ _ h2
  obtain ⟨hiveq, h5⟩ := List.append_inj_of_length_left h3 hiv
  have hd : d = [] := by
    have := congrArg List.length h5
    simp only [List.length_append] at this
    have : d.length = 0 := by omega
    exact List.length_eq_zero.mp this
  subst hd
  simp only [List.append_nil] at h5
  exact ⟨hiveq, h5, rfl⟩

/-- No idealized tag under a key is a proper prefix of another: reading a
tag off the front of a longer tag forces the whole tag. -/
theorem gcmTag_not_proper_prefix (key iv1 c1 iv2 c2 : List Nat) (t : Nat)
    (hlt : t < (gcmTag key iv2 c2).length)
    (h : gcmTag key iv1 c1 = (gcmTag key iv2 c2).take t) : False := by
  have hsplit : gcmTag key iv1 c1 ++ (gcmTag key iv2 c2).drop t = gcmTag key iv2 c2 := by
    rw [h]
    exact List.take_append_drop t _
  obtain ⟨-, -, hd⟩ := gcmTag_append_inj key iv1 c1 iv2 c2 _ hsplit
  have := List.drop_eq_nil_iff.mp hd
  omega

/-- Tag bytes are bytes. -/
theorem gcmTag_valid (key iv ct : List Nat) (hk : ValidBytes key) (hiv : ValidBytes iv)
    (hct : ValidBytes ct) : ValidBytes (gcmTag key iv ct) := by
  intro b hb
  simp only [gcmTag, unary, List.append_assoc, List.mem_append, List.mem_cons,
    List.mem_replicate, List.not_mem_nil, or_false] at hb
  rcases hb with hb | ⟨-, rfl⟩ | rfl | ⟨-, rfl⟩ | rfl | hb | hb
  · exact hk b hb
  · omega
  · omega
  · omega
  · omega
  · exact hiv b hb
  · exact hct b hb

/-- Length of the idealized tag. -/
theorem gcmTag_length (key iv ct : List Nat) :
    (gcmTag key iv ct).length
      = key.length + iv.length + 1 + ct.length + 1 + iv.length + ct.length := by
  simp [gcmTag, unary]
  omega

/-- Splitting a list that opens with a non-dot character prepends it to the
first component. -/
theorem splitOnDot_cons_ne (x : Nat) (r : List Nat) (hx : x ≠ DOT) :
    ∃ h t, splitOnDot r = h :: t ∧ splitOnDot (x :: r) = (x :: h) :: t := by
  cases hs : splitOnDot r with
  | nil => exact absurd hs (splitOnDot_ne_nil r)
  | cons head tail =>
    refine ⟨head, tail, rfl, ?_⟩
    rw [splitOnDot, if_neg hx, hs]

/-- Splitting a list that opens with the dot prepends an empty component. -/
theorem splitOnDot_cons_dot (r : List Nat) :
    splitOnDot (DOT :: r) = [] :: splitOnDot r := by
  rw [splitOnDot, if_pos rfl]

/-- The decryption of a token whose split is known, in closed form. -/
theorem decryptJson_eq_of_split (token key : List Nat) (v a b cc : List Nat)
    (rest : List (List Nat))
    (hsplit : splitOnDot token = v :: a :: b :: cc :: rest) :
    decryptJson token key
      = if v = ENCRYPTION_VERSION ∧ a ≠ [] ∧ b ≠ [] ∧ cc ≠ [] then
          (match b64Decode a, b64Decode b, b64Decode cc with
            | some iv2, some tag2, some ct2 => gcmDecrypt key iv2 ct2 tag2
            | _, _, _ => none)
        else none := by
  unfold decryptJson parseToken
  rw [hsplit]
  dsimp only
  split_ifs with hcond
  · rfl
  · rfl

/-- A token with at most three components never decrypts. -/
theorem decryptJson_split_short (token key : List Nat) (l : List (List Nat))
    (hsplit : splitOnDot token = l) (hlen : l.length ≤ 3) :
    decryptJson token key = none := by
  unfold decryptJson parseToken
  rw [hsplit]
  rcases l with _ | ⟨a, _ | ⟨b, _ | ⟨c, _ | ⟨d, t⟩⟩⟩⟩
  · rfl
  · rfl
  · rfl
  · rfl
  · simp only [List.length_cons] at hlen
    omega

/-- Authenticated decryption rejects a mismatched tag. -/
theorem gcmDecrypt_ne (key iv ct tag : List Nat) (h : tag ≠ gcmTag key iv ct) :
    gcmDecrypt key iv ct tag = none := if_neg h

/-- The encoding length formula is strictly monotone in the byte count. -/
theorem b64Encode_length_lt {a b : List Nat}
    (h : (b64Encode a).length < (b64Encode b).length) : a.length < b.length := by
  rw [b64Encode_length, b64Encode_length] at h
  omega

/-- Recomposition of a list from its prefix, the element at `j`, and the
remaining suffix. -/
theorem take_getD_cons_drop (l : List Nat) (j : Nat) (h : j < l.length) :
    l.take j ++ l.getD j 0 :: l.drop (j + 1) = l := by
  rw [List.getD_eq_getElem l 0 h]
  rw [← List.drop_eq_getElem_cons h]
  exact List.take_append_drop j l

/-- Writing a different value at a position changes the list. -/
theorem set_ne_of_ne (l : List Nat) (j c : Nat) (hj : j < l.length)
    (hc : c ≠ l.getD j 0) : l.set j c ≠ l := by
  intro he
  rw [List.set_eq_take_cons_drop c hj] at he
  conv_rhs at he => rw [← take_getD_cons_drop l j hj]
  have h2 := List.append_cancel_left he
  exact hc (List.head_eq_of_cons_eq h2)

/-- Writing a non-dot value into a dot-free list keeps it dot-free. -/
theorem dotfree_set {l : List Nat} (hl : ∀ x ∈ l, x ≠ DOT) (j c : Nat) (hc : c ≠ DOT) :
    ∀ x ∈ l.set j c, x ≠ DOT := by
  intro x hx
  rcases List.mem_or_eq_of_mem_set hx with hx | rfl
  · exact hl x hx
  · exact hc

/-- Decoding an encoding altered at one position never returns the original
bytes. -/
theorem b64Decode_set_ne {x : List Nat} (hx : ValidBytes x) (j c : Nat)
    (hj : j < (b64Encode x).length) (hc : c ≠ (b64Encode x).getD j 0)
    {y : List Nat} (hdec : b64Decode ((b64Encode x).set j c) = some y) : y ≠ x := by
  intro heq
  subst heq
  obtain ⟨hcanon, -⟩ := b64Decode_canonical _ _ hdec
  exact set_ne_of_ne (b64Encode y) j c hj hc hcanon

/-- Decoding a strict prefix of an encoding yields a strictly shorter byte
prefix of the original. -/
theorem b64Decode_take_prefix {x : List Nat} (hx : ValidBytes x) (j : Nat)
    (hj : j < (b64Encode x).length)
    {y : List Nat} (hdec : b64Decode ((b64Encode x).take j) = some y) :
    y = x.take y.length ∧ y.length < x.length := by
  obtain ⟨hcanon, hyv⟩ := b64Decode_canonical _ _ hdec
  have happ : b64Encode y ++ (b64Encode x).drop j = b64Encode x := by
    rw [← hcanon]
    exact List.take_append_drop j _
  have hpre := b64Encode_prefix y x _ hyv hx happ
  refine ⟨hpre, ?_⟩
  apply b64Encode_length_lt
  rw [← hcanon]
  rw [List.length_take]
  omega

/-- The token of `encryptJson`, right-nested for component reasoning. -/
theorem encryptJson_eq (plain key iv : List Nat) :
    encryptJson plain key iv
      = ENCRYPTION_VERSION ++ DOT :: (b64Encode iv
          ++ DOT :: (b64Encode (gcmTag key iv (gcmMaskFrom key iv 0 plain))
          ++ DOT :: b64Encode (gcmMaskFrom key iv 0 plain))) := by
  simp [encryptJson, List.append_assoc]

/-- Flipping any single byte of a well-formed token to a different value
makes decryption fail.  Stated over the token shape with an arbitrary valid
ciphertext. -/
theorem decryptJson_flip (key iv ct : List Nat)
    (hkv : ValidBytes key) (hkl : key.length = 32)
    (hivv : ValidBytes iv) (hivl : iv.length = 12)
    (hctv : ValidBytes ct) (hctn : ct ≠ [])
    (i c : Nat)
    (hi : i < (ENCRYPTION_VERSION ++ DOT :: (b64Encode iv ++ DOT ::
        (b64Encode (gcmTag key iv ct) ++ DOT :: b64Encode ct))).length)
    (hc : c ≠ (ENCRYPTION_VERSION ++ DOT :: (b64Encode iv ++ DOT ::
        (b64Encode (gcmTag key iv ct) ++ DOT :: b64Encode ct))).getD i 0) :
    decryptJson ((ENCRYPTION_VERSION ++ DOT :: (b64Encode iv ++ DOT ::
        (b64Encode (gcmTag key iv ct) ++ DOT :: b64Encode ct))).set i c) key = none := by
  have htgv : ValidBytes (gcmTag key iv ct) := gcmTag_valid key iv ct hkv hivv hctv
  have hLpos : 0 < ct.length := List.length_pos.mpr hctn
  have htglen : (gcmTag key iv ct).length = 58 + 2 * ct.length := by
    rw [gcmTag_length, hkl, hivl]
    omega
  have hdec1 : b64Decode (b64Encode iv) = some iv := b64_roundtrip iv hivv
  have hdec2 : b64Decode (b64Encode (gcmTag key iv ct)) = some (gcmTag key iv ct) :=
    b64_roundtrip _ htgv
  have hdec3 : b64Decode (b64Encode ct) = some ct := b64_roundtrip ct hctv
  have hdf1 := b64Encode_dotfree iv
  have hdf2 := b64Encode_dotfree (gcmTag key iv ct)
  have hdf3 := b64Encode_dotfree ct
  set tg := gcmTag key iv ct with htgdef
  set S1 := b64Encode iv with hS1def
  set S2 := b64Encode tg with hS2def
  set S3 := b64Encode ct with hS3def
  have hS1len : S1.length = 16 := by rw [hS1def, b64Encode_length, hivl]
  have hS2len : S2.length = (4 * (58 + 2 * ct.length) + 2) / 3 := by
    rw [hS2def, b64Encode_length, htglen]
  have hS2big : 80 ≤ S2.length := by rw [hS2len]; omega
  have hS3len : S3.length = (4 * ct.length + 2) / 3 := by rw [hS3def, b64Encode_length]
  have hS3pos : 2 ≤ S3.length := by rw [hS3len]; omega
  have hS1ne : S1 ≠ [] := by
    intro h0
    rw [h0] at hS1len
    simp at hS1len
  have hS2ne : S2 ≠ [] := by
    intro h0
    rw [h0] at hS2big
    simp at hS2big
  have hS3ne : S3 ≠ [] := by
    intro h0
    rw [h0] at hS3pos
    simp at hS3pos
  have hEVlen : ENCRYPTION_VERSION.length = 2 := rfl
  have hTlen : (ENCRYPTION_VERSION ++ DOT :: (S1 ++ DOT :: (S2 ++ DOT :: S3))).length
      = 21 + S2.length + S3.length := by
    simp [List.length_append, hS1len, hEVlen]
    omega
  rw [hTlen] at hi
  by_cases hA : i < 2
  · -- inside the version component
    have horig : (ENCRYPTION_VERSION ++ DOT :: (S1 ++ DOT :: (S2 ++ DOT :: S3))).getD i 0
        = ENCRYPTION_VERSION.getD i 0 := List.getD_append _ _ _ _ (by omega)
    rw [horig] at hc
    interval_cases i
    · -- first version byte
      have hset : (ENCRYPTION_VERSION ++ DOT :: (S1 ++ DOT :: (S2 ++ DOT :: S3))).set 0 c
          = c :: 49 :: DOT :: (S1 ++ DOT :: (S2 ++ DOT :: S3)) := rfl
      rw [hset]
      by_cases hcd : c = DOT
      · subst hcd
        have hrest : splitOnDot ((49 : Nat) :: DOT :: (S1 ++ DOT :: (S2 ++ DOT :: S3)))
            = [49] :: S1 :: S2 :: [S3] := by
          show splitOnDot ([49] ++ DOT :: (S1 ++ DOT :: (S2 ++ DOT :: S3))) = _
          rw [splitOnDot_append_dot _ _ (by decide),
            splitOnDot_append_dot _ _ hdf1, splitOnDot_append_dot _ _ hdf2,
            splitOnDot_dotfree _ hdf3]
        have hsplit : splitOnDot (DOT :: 49 :: DOT :: (S1 ++ DOT :: (S2 ++ DOT :: S3)))
            = [] :: [49] :: S1 :: S2 :: [S3] := by
          rw [splitOnDot_cons_dot, hrest]
        rw [decryptJson_eq_of_split _ key _ _ _ _ _ hsplit]
        rw [if_neg (by simp [ENCRYPTION_VERSION])]
      · have hv : ∀ x ∈ [c, 49], x ≠ DOT := by
          intro x hx
          rcases List.mem_cons.mp hx with rfl | hx
          · exact hcd
          · rcases List.mem_singleton.mp hx with rfl
            decide
        have hsplit : splitOnDot (c :: 49 :: DOT :: (S1 ++ DOT :: (S2 ++ DOT :: S3)))
            = [c, 49] :: S1 :: S2 :: [S3] := by
          show splitOnDot ([c, 49] ++ DOT :: (S1 ++ DOT :: (S2 ++ DOT :: S3))) = _
          rw [splitOnDot_append_dot _ _ hv,
            splitOnDot_append_dot _ _ hdf1, splitOnDot_append_dot _ _ hdf2,
            splitOnDot_dotfree _ hdf3]
        rw [decryptJson_eq_of_split _ key _ _ _ _ _ hsplit]
        rw [if_neg (by
          intro hcond
          have := hcond.1
          simp only [ENCRYPTION_VERSION, List.cons.injEq] at this
          exact hc (by simpa [ENCRYPTION_VERSION] using this.1))]
    · -- second version byte
      have hset : (ENCRYPTION_VERSION ++ DOT :: (S1 ++ DOT :: (S2 ++ DOT :: S3))).set 1 c
          = 118 :: c :: DOT :: (S1 ++ DOT :: (S2 ++ DOT :: S3)) := rfl
      rw [hset]
      by_cases hcd : c = DOT
      · subst hcd
        have hsplit : splitOnDot ((118 : Nat) :: DOT :: DOT :: (S1 ++ DOT :: (S2 ++ DOT :: S3)))
            = [118] :: [] :: S1 :: S2 :: [S3] := by
          show splitOnDot ([118] ++ DOT :: (DOT :: (S1 ++ DOT :: (S2 ++ DOT :: S3)))) = _
          rw [splitOnDot_append_dot _ _ (by decide), splitOnDot_cons_dot,
            splitOnDot_append_dot _ _ hdf1, splitOnDot_append_dot _ _ hdf2,
            splitOnDot_dotfree _ hdf3]
        rw [decryptJson_eq_of_split _ key _ _ _ _ _ hsplit]
        rw [if_neg (by simp [ENCRYPTION_VERSION])]
      · have hv : ∀ x ∈ [118, c], x ≠ DOT := by
          intro x hx
          rcases List.mem_cons.mp hx with rfl | hx
          · decide
          · rcases List.mem_singleton.mp hx with rfl
            exact hcd
        have hsplit : splitOnDot ((118 : Nat) :: c :: DOT :: (S1 ++ DOT :: (S2 ++ DOT :: S3)))
            = [118, c] :: S1 :: S2 :: [S3] := by
          show splitOnDot ([118, c] ++ DOT :: (S1 ++ DOT :: (S2 ++ DOT :: S3))) = _
          rw [splitOnDot_append_dot _ _ hv,
            splitOnDot_append_dot _ _ hdf1, splitOnDot_append_dot _ _ hdf2,
            splitOnDot_dotfree _ hdf3]
        rw [decryptJson_eq_of_split _ key _ _ _ _ _ hsplit]
        rw [if_neg (by
          intro hcond
          have := hcond.1
          simp only [ENCRYPTION_VERSION, List.cons.injEq] at this
          exact hc (by simpa [ENCRYPTION_VERSION] using this.2.1))]
  · by_cases hB : i = 2
    · -- the first dot
      subst hB
      have horig : (ENCRYPTION_VERSION ++ DOT :: (S1 ++ DOT :: (S2 ++ DOT :: S3))).getD 2 0
          = DOT := by
        rw [List.getD_append_right _ _ _ _ (by rw [hEVlen])]
        rw [hEVlen]
        simp
      rw [horig] at hc
      have hset : (ENCRYPTION_VERSION ++ DOT :: (S1 ++ DOT :: (S2 ++ DOT :: S3))).set 2 c
          = ENCRYPTION_VERSION ++ c :: (S1 ++ DOT :: (S2 ++ DOT :: S3)) := by
        rw [List.set_append_right _ _ (by rw [hEVlen])]
        rw [hEVlen]
        rfl
      rw [hset]
      have hre : ENCRYPTION_VERSION ++ c :: (S1 ++ DOT :: (S2 ++ DOT :: S3))
          = (ENCRYPTION_VERSION ++ c :: S1) ++ DOT :: (S2 ++ DOT :: S3) := by
        simp [List.append_assoc]
      rw [hre]
      have hvfree : ∀ x ∈ ENCRYPTION_VERSION ++ c :: S1, x ≠ DOT := by
        intro x hx
        rcases List.mem_append.mp hx with hx | hx
        · simp only [ENCRYPTION_VERSION, List.mem_cons, List.not_mem_nil, or_false] at hx
          rcases hx with rfl | rfl <;> decide
        · rcases List.mem_cons.mp hx with rfl | hx
          · exact hc
          · exact hdf1 x hx
      have hsplit : splitOnDot ((ENCRYPTION_VERSION ++ c :: S1) ++ DOT :: (S2 ++ DOT :: S3))
          = (ENCRYPTION_VERSION ++ c :: S1) :: S2 :: [S3] := by
        rw [splitOnDot_append_dot _ _ hvfree, splitOnDot_append_dot _ _ hdf2,
          splitOnDot_dotfree _ hdf3]
      exact decryptJson_split_short _ key _ hsplit (by simp)
    · by_cases hC : i < 19
      · -- inside the nonce component
        have hj : i - 3 < S1.length := by rw [hS1len]; omega
        have hEVle : ENCRYPTION_VERSION.length ≤ i := by rw [hEVlen]; omega
        have hidx : i - ENCRYPTION_VERSION.length = (i - 3) + 1 := by rw [hEVlen]; omega
        have horig : (ENCRYPTION_VERSION ++ DOT :: (S1 ++ DOT :: (S2 ++ DOT :: S3))).getD i 0
            = S1.getD (i - 3) 0 := by
          rw [List.getD_append_right _ _ _ _ hEVle, hidx, List.getD_cons_succ,
            List.getD_append _ _ _ _ hj]
        rw [horig] at hc
        have hset : (ENCRYPTION_VERSION ++ DOT :: (S1 ++ DOT :: (S2 ++ DOT :: S3))).set i c
            = ENCRYPTION_VERSION ++ DOT :: (S1.set (i - 3) c ++ DOT :: (S2 ++ DOT :: S3)) := by
          rw [List.set_append_right _ _ hEVle, hidx, List.set_cons_succ,
            List.set_append_left _ _ hj]
        rw [hset]
        by_cases hcd : c = DOT
        · subst hcd
          rw [List.set_eq_take_cons_drop DOT hj]
          have hre : ENCRYPTION_VERSION ++ DOT :: ((S1.take (i - 3)
                ++ DOT :: S1.drop (i - 3 + 1)) ++ DOT :: (S2 ++ DOT :: S3))
              = ENCRYPTION_VERSION ++ DOT :: (S1.take (i - 3)
                ++ DOT :: (S1.drop (i - 3 + 1) ++ DOT :: (S2 ++ DOT :: S3))) := by
            simp [List.append_assoc]
          rw [hre]
          have hsplit : splitOnDot (ENCRYPTION_VERSION ++ DOT :: (S1.take (i - 3)
                ++ DOT :: (S1.drop (i - 3 + 1) ++ DOT :: (S2 ++ DOT :: S3))))
              = ENCRYPTION_VERSION :: S1.take (i - 3) :: S1.drop (i - 3 + 1) :: S2 :: [S3] := by
            rw [splitOnDot_append_dot _ _ (by decide),
              splitOnDot_append_dot _ _ (fun x hx => hdf1 x (List.mem_of_mem_take hx)),
              splitOnDot_append_dot _ _ (fun x hx => hdf1 x (List.mem_of_mem_drop hx)),
              splitOnDot_append_dot _ _ hdf2, splitOnDot_dotfree _ hdf3]
          rw [decryptJson_eq_of_split _ key _ _ _ _ _ hsplit]
          by_cases hj0 : S1.take (i - 3) = []
          · rw [if_neg (by tauto)]
          by_cases hj15 : S1.drop (i - 3 + 1) = []
          · rw [if_neg (by tauto)]
          rw [if_pos ⟨rfl, hj0, hj15, hS2ne⟩]
          cases hdA : b64Decode (S1.take (i - 3)) with
          | none => rfl
          | some iv2 =>
            cases hdB : b64Decode (S1.drop (i - 3 + 1)) with
            | none => rfl
            | some tag2 =>
              rw [hdec2]
              apply gcmDecrypt_ne
              intro heq
              obtain ⟨hcanB, hvB⟩ := b64Decode_canonical _ _ hdB
              have hlenB := congrArg List.length hcanB
              rw [b64Encode_length] at hlenB
              have hdl : (S1.drop (i - 3 + 1)).length = S1.length - (i - 3 + 1) := by simp
              have htag2small : tag2.length ≤ 11 := by
                rw [hS1len] at hdl
                omega
              have hlen := congrArg List.length heq
              rw [gcmTag_length, hkl, htglen] at hlen
              omega
        · have hdfS1' := dotfree_set hdf1 (i - 3) c hcd
          have hS1'ne : S1.set (i - 3) c ≠ [] := by
            intro h0
            have := congrArg List.length h0
            rw [List.length_set] at this
            rw [hS1len] at this
            simp at this
          have hsplit : splitOnDot (ENCRYPTION_VERSION
                ++ DOT :: (S1.set (i - 3) c ++ DOT :: (S2 ++ DOT :: S3)))
              = ENCRYPTION_VERSION :: S1.set (i - 3) c :: S2 :: [S3] := by
            rw [splitOnDot_append_dot _ _ (by decide),
              splitOnDot_append_dot _ _ hdfS1', splitOnDot_append_dot _ _ hdf2,
              splitOnDot_dotfree _ hdf3]
          rw [decryptJson_eq_of_split _ key _ _ _ _ _ hsplit]
          rw [if_pos ⟨rfl, hS1'ne, hS2ne, hS3ne⟩]
          cases hdA : b64Decode (S1.set (i - 3) c) with
          | none => rfl
          | some iv2 =>
            rw [hdec2, hdec3]
            apply gcmDecrypt_ne
            intro heq
            have hne : iv2 ≠ iv := b64Decode_set_ne hivv (i - 3) c hj hc hdA
            have hinj := gcmTag_append_inj key iv2 ct iv ct (d := [])
              (by rw [List.append_nil]; exact heq.symm.trans htgdef)
            exact hne hinj.1
      · by_cases hD : i = 19
        · -- the second dot
          subst hD
          have hEVle : ENCRYPTION_VERSION.length ≤ 19 := by rw [hEVlen]; omega
          have hidx : 19 - ENCRYPTION_VERSION.length = 16 + 1 := by rw [hEVlen]
          have hS1le : S1.length ≤ 16 := by omega
          have horig : (ENCRYPTION_VERSION ++ DOT :: (S1 ++ DOT :: (S2 ++ DOT :: S3))).getD 19 0
              = DOT := by
            rw [List.getD_append_right _ _ _ _ hEVle, hidx, List.getD_cons_succ,
              List.getD_append_right _ _ _ _ hS1le, hS1len]
            simp
          rw [horig] at hc
          have hset : (ENCRYPTION_VERSION ++ DOT :: (S1 ++ DOT :: (S2 ++ DOT :: S3))).set 19 c
              = ENCRYPTION_VERSION ++ DOT :: (S1 ++ c :: (S2 ++ DOT :: S3)) := by
            rw [List.set_append_right _ _ hEVle, hidx, List.set_cons_succ,
              List.set_append_right _ _ hS1le, hS1len]
            rfl
          rw [hset]
          have hre : ENCRYPTION_VERSION ++ DOT :: (S1 ++ c :: (S2 ++ DOT :: S3))
              = ENCRYPTION_VERSION ++ DOT :: ((S1 ++ c :: S2) ++ DOT :: S3) := by
            simp [List.append_assoc]
          rw [hre]
          have hvfree : ∀ x ∈ S1 ++ c :: S2, x ≠ DOT := by
            intro x hx
            rcases List.mem_append.mp hx with hx | hx
            · exact hdf1 x hx
            · rcases List.mem_cons.mp hx with rfl | hx
              · exact hc
              · exact hdf2 x hx
          have hsplit : splitOnDot (ENCRYPTION_VERSION
                ++ DOT :: ((S1 ++ c :: S2) ++ DOT :: S3))
              = ENCRYPTION_VERSION :: (S1 ++ c :: S2) :: [S3] := by
            rw [splitOnDot_append_dot _ _ (by decide),
              splitOnDot_append_dot _ _ hvfree, splitOnDot_dotfree _ hdf3]
          exact decryptJson_split_short _ key _ hsplit (by simp)
        · by_cases hE : i < 20 + S2.length
          · -- inside the tag component
            have hj : i - 20 < S2.length := by omega
            have hEVle : ENCRYPTION_VERSION.length ≤ i := by rw [hEVlen]; omega
            have hidx : i - ENCRYPTION_VERSION.length = (i - 3) + 1 := by rw [hEVlen]; omega
            have hS1le : S1.length ≤ i - 3 := by omega
            have hidx2 : i - 3 - S1.length = (i - 20) + 1 := by rw [hS1len]; omega
            have horig : (ENCRYPTION_VERSION ++ DOT :: (S1 ++ DOT :: (S2 ++ DOT :: S3))).getD i 0
                = S2.getD (i - 20) 0 := by
              rw [List.getD_append_right _ _ _ _ hEVle, hidx, List.getD_cons_succ,
                List.getD_append_right _ _ _ _ hS1le, hidx2, List.getD_cons_succ,
                List.getD_append _ _ _ _ hj]
            rw [horig] at hc
            have hset : (ENCRYPTION_VERSION ++ DOT :: (S1 ++ DOT :: (S2 ++ DOT :: S3))).set i c
                = ENCRYPTION_VERSION
                  ++ DOT :: (S1 ++ DOT :: (S2.set (i - 20) c ++ DOT :: S3)) := by
              rw [List.set_append_right _ _ hEVle, hidx, List.set_cons_succ,
                List.set_append_right _ _ hS1le, hidx2, List.set_cons_succ,
                List.set_append_left _ _ hj]
            rw [hset]
            by_cases hcd : c = DOT
            · subst hcd
              rw [List.set_eq_take_cons_drop DOT hj]
              have hre : ENCRYPTION_VERSION ++ DOT :: (S1 ++ DOT :: ((S2.take (i - 20)
                    ++ DOT :: S2.drop (i - 20 + 1)) ++ DOT :: S3))
                  = ENCRYPTION_VERSION ++ DOT :: (S1 ++ DOT :: (S2.take (i - 20)
                    ++ DOT :: (S2.drop (i - 20 + 1) ++ DOT :: S3))) := by
                simp [List.append_assoc]
              rw [hre]
              have hsplit : splitOnDot (ENCRYPTION_VERSION ++ DOT :: (S1
                    ++ DOT :: (S2.take (i - 20)
                      ++ DOT :: (S2.drop (i - 20 + 1) ++ DOT :: S3))))
                  = ENCRYPTION_VERSION :: S1 :: S2.take (i - 20)
                      :: S2.drop (i - 20 + 1) :: [S3] := by
                rw [splitOnDot_append_dot _ _ (by decide),
                  splitOnDot_append_dot _ _ hdf1,
                  splitOnDot_append_dot _ _ (fun x hx => hdf2 x (List.mem_of_mem_take hx)),
                  splitOnDot_append_dot _ _ (fun x hx => hdf2 x (List.mem_of_mem_drop hx)),
                  splitOnDot_dotfree _ hdf3]
              rw [decryptJson_eq_of_split _ key _ _ _ _ _ hsplit]
              by_cases hj0 : S2.take (i - 20) = []
              · rw [if_neg (by tauto)]
              by_cases hjlast : S2.drop (i - 20 + 1) = []
              · rw [if_neg (by tauto)]
              rw [if_pos ⟨rfl, hS1ne, hj0, hjlast⟩]
              rw [hdec1]
              cases hdB : b64Decode (S2.take (i - 20)) with
              | none => rfl
              | some tag2 =>
                cases hdC : b64Decode (S2.drop (i - 20 + 1)) with
                | none => rfl
                | some ct2 =>
                  apply gcmDecrypt_ne
                  intro heq
                  obtain ⟨hpre, hlt⟩ := b64Decode_take_prefix htgv (i - 20) hj hdB
                  exact gcmTag_not_proper_prefix key iv ct2 iv ct tag2.length
                    (by rw [← htgdef]; omega)
                    (by rw [← htgdef]; exact heq.symm.trans hpre)
            · have hdfS2' := dotfree_set hdf2 (i - 20) c hcd
              have hS2'ne : S2.set (i - 20) c ≠ [] := by
                intro h0
                have := congrArg List.length h0
                rw [List.length_set] at this
                simp only [List.length_nil] at this
                omega
              have hsplit : splitOnDot (ENCRYPTION_VERSION
                    ++ DOT :: (S1 ++ DOT :: (S2.set (i - 20) c ++ DOT :: S3)))
                  = ENCRYPTION_VERSION :: S1 :: S2.set (i - 20) c :: [S3] := by
                rw [splitOnDot_append_dot _ _ (by decide),
                  splitOnDot_append_dot _ _ hdf1,
                  splitOnDot_append_dot _ _ hdfS2', splitOnDot_dotfree _ hdf3]
              rw [decryptJson_eq_of_split _ key _ _ _ _ _ hsplit]
              rw [if_pos ⟨rfl, hS1ne, hS2'ne, hS3ne⟩]
              rw [hdec1, hdec3]
              cases hdB : b64Decode (S2.set (i - 20) c) with
              | none => rfl
              | some tag2 =>
                apply gcmDecrypt_ne
                intro heq
                have hne : tag2 ≠ tg := b64Decode_set_ne htgv (i - 20) c hj hc hdB
                exact hne (heq.trans htgdef.symm)
          · by_cases hF : i = 20 + S2.length
            · -- the third dot
              subst hF
              have hEVle : ENCRYPTION_VERSION.length ≤ 20 + S2.length := by
                rw [hEVlen]; omega
              have hidx : 20 + S2.length - ENCRYPTION_VERSION.length
                  = (17 + S2.length) + 1 := by rw [hEVlen]; omega
              have hS1le : S1.length ≤ 17 + S2.length := by omega
              have hidx2 : 17 + S2.length - S1.length = S2.length + 1 := by
                rw [hS1len]; omega
              have hS2le : S2.length ≤ S2.length := le_refl _
              have horig : (ENCRYPTION_VERSION
                    ++ DOT :: (S1 ++ DOT :: (S2 ++ DOT :: S3))).getD (20 + S2.length) 0
                  = DOT := by
                rw [List.getD_append_right _ _ _ _ hEVle, hidx, List.getD_cons_succ,
                  List.getD_append_right _ _ _ _ hS1le, hidx2, List.getD_cons_succ,
                  List.getD_append_right _ _ _ _ hS2le]
                simp
              rw [horig] at hc
              have hset : (ENCRYPTION_VERSION
                    ++ DOT :: (S1 ++ DOT :: (S2 ++ DOT :: S3))).set (20 + S2.length) c
                  = ENCRYPTION_VERSION ++ DOT :: (S1 ++ DOT :: (S2 ++ c :: S3)) := by
                rw [List.set_append_right _ _ hEVle, hidx, List.set_cons_succ,
                  List.set_append_right _ _ hS1le, hidx2, List.set_cons_succ,
                  List.set_append_right _ _ hS2le]
                simp
              rw [hset]
              have hvfree : ∀ x ∈ S2 ++ c :: S3, x ≠ DOT := by
                intro x hx
                rcases List.mem_append.mp hx with hx | hx
                · exact hdf2 x hx
                · rcases List.mem_cons.mp hx with rfl | hx
                  · exact hc
                  · exact hdf3 x hx
              have hsplit : splitOnDot (ENCRYPTION_VERSION
                    ++ DOT :: (S1 ++ DOT :: (S2 ++ c :: S3)))
                  = ENCRYPTION_VERSION :: S1 :: [S2 ++ c :: S3] := by
                rw [splitOnDot_append_dot _ _ (by decide),
                  splitOnDot_append_dot _ _ hdf1, splitOnDot_dotfree _ hvfree]
              exact decryptJson_split_short _ key _ hsplit (by simp)
            · -- inside the ciphertext component
              have hj : i - (21 + S2.length) < S3.length := by omega
              have hEVle : ENCRYPTION_VERSION.length ≤ i := by rw [hEVlen]; omega
              have hidx : i - ENCRYPTION_VERSION.length = (i - 3) + 1 := by
                rw [hEVlen]; omega
              have hS1le : S1.length ≤ i - 3 := by omega
              have hidx2 : i - 3 - S1.length = (i - 20) + 1 := by rw [hS1len]; omega
              have hS2le : S2.length ≤ i - 20 := by omega
              have hidx3 : i - 20 - S2.length = (i - (21 + S2.length)) + 1 := by omega
              have horig : (ENCRYPTION_VERSION
                    ++ DOT :: (S1 ++ DOT :: (S2 ++ DOT :: S3))).getD i 0
                  = S3.getD (i - (21 + S2.length)) 0 := by
                rw [List.getD_append_right _ _ _ _ hEVle, hidx, List.getD_cons_succ,
                  List.getD_append_right _ _ _ _ hS1le, hidx2, List.getD_cons_succ,
                  List.getD_append_right _ _ _ _ hS2le, hidx3, List.getD_cons_succ]
              rw [horig] at hc
              have hset : (ENCRYPTION_VERSION
                    ++ DOT :: (S1 ++ DOT :: (S2 ++ DOT :: S3))).set i c
                  = ENCRYPTION_VERSION ++ DOT :: (S1
                      ++ DOT :: (S2 ++ DOT :: S3.set (i - (21 + S2.length)) c)) := by
                rw [List.set_append_right _ _ hEVle, hidx, List.set_cons_succ,
                  List.set_append_right _ _ hS1le, hidx2, List.set_cons_succ,
                  List.set_append_right _ _ hS2le, hidx3, List.set_cons_succ]
              rw [hset]
              by_cases hcd : c = DOT
              · subst hcd
                rw [List.set_eq_take_cons_drop DOT hj]
                have hsplit : splitOnDot (ENCRYPTION_VERSION ++ DOT :: (S1
                      ++ DOT :: (S2 ++ DOT :: (S3.take (i - (21 + S2.length))
                        ++ DOT :: S3.drop (i - (21 + S2.length) + 1)))))
                    = ENCRYPTION_VERSION :: S1 :: S2 :: S3.take (i - (21 + S2.length))
                        :: [S3.drop (i - (21 + S2.length) + 1)] := by
                  rw [splitOnDot_append_dot _ _ (by decide),
                    splitOnDot_append_dot _ _ hdf1, splitOnDot_append_dot _ _ hdf2,
                    splitOnDot_append_dot _ _
                      (fun x hx => hdf3 x (List.mem_of_mem_take hx)),
                    splitOnDot_dotfree _ (fun x hx => hdf3 x (List.mem_of_mem_drop hx))]
                rw [decryptJson_eq_of_split _ key _ _ _ _ _ hsplit]
                by_cases hj0 : S3.take (i - (21 + S2.length)) = []
                · rw [if_neg (by tauto)]
                rw [if_pos ⟨rfl, hS1ne, hS2ne, hj0⟩]
                rw [hdec1, hdec2]
                cases hdC : b64Decode (S3.take (i - (21 + S2.length))) with
                | none => rfl
                | some ct2 =>
                  apply gcmDecrypt_ne
                  intro heq
                  obtain ⟨-, hlt⟩ := b64Decode_take_prefix hctv (i - (21 + S2.length)) hj hdC
                  have hinj := gcmTag_append_inj key iv ct2 iv ct (d := [])
                    (by rw [List.append_nil]; exact heq.symm.trans htgdef)
                  have := congrArg List.length hinj.2.1
                  omega
              · have hdfS3' := dotfree_set hdf3 (i - (21 + S2.length)) c hcd
                have hS3'ne : S3.set (i - (21 + S2.length)) c ≠ [] := by
                  intro h0
                  have := congrArg List.length h0
                  rw [List.length_set] at this
                  simp only [List.length_nil] at this
                  omega
                have hsplit : splitOnDot (ENCRYPTION_VERSION ++ DOT :: (S1
                      ++ DOT :: (S2 ++ DOT :: S3.set (i - (21 + S2.length)) c)))
                    = ENCRYPTION_VERSION :: S1 :: S2
                        :: [S3.set (i - (21 + S2.length)) c] := by
                  rw [splitOnDot_append_dot _ _ (by decide),
                    splitOnDot_append_dot _ _ hdf1, splitOnDot_append_dot _ _ hdf2,
                    splitOnDot_dotfree _ hdfS3']
                rw [decryptJson_eq_of_split _ key _ _ _ _ _ hsplit]
                rw [if_pos ⟨rfl, hS1ne, hS2ne, hS3'ne⟩]
                rw [hdec1, hdec2]
                cases hdC : b64Decode (S3.set (i - (21 + S2.length)) c) with
                | none => rfl
                | some ct2 =>
                  apply gcmDecrypt_ne
                  intro heq
                  have hne : ct2 ≠ ct :=
                    b64Decode_set_ne hctv (i - (21 + S2.length)) c hj hc hdC
                  have hinj := gcmTag_append_inj key iv ct2 iv ct (d := [])
                    (by rw [List.append_nil]; exact heq.symm.trans htgdef)
                  exact hne hinj.2.1

/-- A nonempty byte list has a nonempty encoding. -/
theorem b64Encode_ne_nil {l : List Nat} (hl : l ≠ []) : b64Encode l ≠ [] := by
  intro h0
  have hlen := congrArg List.length h0
  rw [b64Encode_length] at hlen
  have hpos := List.length_pos.mpr hl
  simp only [List.length_nil] at hlen
  omega

/-- Decryption of a genuine token under its key, spelled out. -/
theorem decryptJson_encryptJson (key iv plain : List Nat)
    (hkv : ValidBytes key) (hivv : ValidBytes iv) (hivl : iv.length = 12)
    (hpv : ValidBytes plain) (hpn : plain ≠ []) :
    decryptJson (encryptJson plain key iv) key = some plain := by
  have hctv := gcmMaskFrom_valid key iv 0 plain
  have hctlen := gcmMaskFrom_length key iv 0 plain
  have hctn : gcmMaskFrom key iv 0 plain ≠ [] := by
    intro h0
    apply hpn
    have hl := congrArg List.length h0
    rw [hctlen] at hl
    simp only [List.length_nil] at hl
    exact List.length_eq_zero.mp hl
  have htgv : ValidBytes (gcmTag key iv (gcmMaskFrom key iv 0 plain)) :=
    gcmTag_valid key iv _ hkv hivv hctv
  have htgn : gcmTag key iv (gcmMaskFrom key iv 0 plain) ≠ [] := by
    intro h0
    have hl := congrArg List.length h0
    rw [gcmTag_length] at hl
    simp only [List.length_nil] at hl
    omega
  have hivn : iv ≠ [] := by
    intro h0
    rw [h0] at hivl
    simp at hivl
  rw [encryptJson_eq]
  have hsplit : splitOnDot (ENCRYPTION_VERSION ++ DOT :: (b64Encode iv
      ++ DOT :: (b64Encode (gcmTag key iv (gcmMaskFrom key iv 0 plain))
      ++ DOT :: b64Encode (gcmMaskFrom key iv 0 plain))))
      = ENCRYPTION_VERSION :: b64Encode iv
        :: b64Encode (gcmTag key iv (gcmMaskFrom key iv 0 plain))
        :: [b64Encode (gcmMaskFrom key iv 0 plain)] := by
    rw [splitOnDot_append_dot _ _ (by decide),
      splitOnDot_append_dot _ _ (b64Encode_dotfree iv),
      splitOnDot_append_dot _ _ (b64Encode_dotfree _),
      splitOnDot_dotfree _ (b64Encode_dotfree _)]
  rw [decryptJson_eq_of_split _ key _ _ _ _ _ hsplit]
  rw [if_pos ⟨rfl, b64Encode_ne_nil hivn, b64Encode_ne_nil htgn, b64Encode_ne_nil hctn⟩]
  rw [b64_roundtrip iv hivv, b64_roundtrip _ htgv, b64_roundtrip _ hctv]
  show gcmDecrypt key iv (gcmMaskFrom key iv 0 plain) (gcmTag key iv _) = some plain
  unfold gcmDecrypt
  rw [if_pos rfl, gcmUnmask_mask key iv 0 plain hpv]

/-- C6: sealing then opening under the same 256-bit key returns the sealed
value, and opening fails closed — returning nothing — on an unknown version
tag, a missing (absent or empty) component, an authentication-tag mismatch,
and on every token obtained from a valid one by flipping any single byte to
a different value. -/
theorem crypto_round_trip_fail_closed
    (key iv plain : List Nat)
    (hkv : ValidBytes key) (hkl : key.length = 32)
    (hivv : ValidBytes iv) (hivl : iv.length = 12)
    (hpv : ValidBytes plain) (hpn : plain ≠ []) :
    decryptJson (encryptJson plain key iv) key = some plain
    ∧ (∀ token key2 v a b cc rest, splitOnDot token = v :: a :: b :: cc :: rest →
        v ≠ ENCRYPTION_VERSION → decryptJson token key2 = none)
    ∧ (∀ token key2 l, splitOnDot token = l → l.length < 4 →
        decryptJson token key2 = none)
    ∧ (∀ token key2 v a b cc rest, splitOnDot token = v :: a :: b :: cc :: rest →
        (a = [] ∨ b = [] ∨ cc = []) → decryptJson token key2 = none)
    ∧ (∀ token key2 v a b cc rest iv2 tag2 ct2,
        splitOnDot token = v :: a :: b :: cc :: rest →
        b64Decode a = some iv2 → b64Decode b = some tag2 → b64Decode cc = some ct2 →
        tag2 ≠ gcmTag key2 iv2 ct2 → decryptJson token key2 = none)
    ∧ ∀ i c, i < (encryptJson plain key iv).length →
        c ≠ (encryptJson plain key iv).getD i 0 →
        decryptJson ((encryptJson plain key iv).set i c) key = none := by
  refine ⟨decryptJson_encryptJson key iv plain hkv hivv hivl hpv hpn, ?_, ?_, ?_, ?_, ?_⟩
  · intro token key2 v a b cc rest hsplit hv
    rw [decryptJson_eq_of_split _ key2 _ _ _ _ _ hsplit]
    rw [if_neg (by tauto)]
  · intro token key2 l hsplit hlen
    exact decryptJson_split_short token key2 l hsplit (by omega)
  · intro token key2 v a b cc rest hsplit hempty
    rw [decryptJson_eq_of_split _ key2 _ _ _ _ _ hsplit]
    rw [if_neg (by tauto)]
  · intro token key2 v a b cc rest iv2 tag2 ct2 hsplit hda hdb hdcc hne
    rw [decryptJson_eq_of_split _ key2 _ _ _ _ _ hsplit]
    split_ifs with hcond
    · rw [hda, hdb, hdcc]
      exact gcmDecrypt_ne _ _ _ _ hne
    · rfl
  · intro i c hi hc
    rw [encryptJson_eq] at hi hc ⊢
    exact decryptJson_flip key iv (gcmMaskFrom key iv 0 plain) hkv hkl hivv hivl
      (gcmMaskFrom_valid key iv 0 plain)
      (by
        intro h0
        apply hpn
        have hl := congrArg List.length h0
        rw [gcmMaskFrom_length] at hl
        simp only [List.length_nil] at hl
        exact List.length_eq_zero.mp hl)
      i c hi hc

set_option maxRecDepth 40000 in
/-- Witness for C6: a concrete key, nonce and payload round-trip, and
flipping the first byte of the version tag makes decryption fail. -/
theorem crypto_round_trip_fail_closed_witness :
    decryptJson (encryptJson samplePlainBytes sampleKeyBytes sampleIvBytes)
        sampleKeyBytes = some samplePlainBytes
      ∧ decryptJson ((encryptJson samplePlainBytes sampleKeyBytes sampleIvBytes).set 0 120)
          sampleKeyBytes = none :=
  ⟨(crypto_round_trip_fail_closed sampleKeyBytes sampleIvBytes samplePlainBytes
      (by decide) (by decide) (by decide) (by decide) (by decide) (by decide)).1,
    (crypto_round_trip_fail_closed sampleKeyBytes sampleIvBytes samplePlainBytes
      (by decide) (by decide) (by decide) (by decide) (by decide) (by decide)).2.2.2.2.2
      0 120 (by decide) (by decide)⟩

/-- C10: appending a dot and any extra byte string to a valid token leaves
decryption unchanged — components beyond the first four are ignored by the
destructuring, not rejected. -/
theorem decrypt_ignores_extra_components
    (key iv plain s : List Nat)
    (hkv : ValidBytes key) (hivv : ValidBytes iv) (hivl : iv.length = 12)
    (hpv : ValidBytes plain) (hpn : plain ≠ []) :
    decryptJson (encryptJson plain key iv ++ DOT :: s) key = some plain := by
  have hctv := gcmMaskFrom_valid key iv 0 plain
  have hctlen := gcmMaskFrom_length key iv 0 plain
  have hctn : gcmMaskFrom key iv 0 plain ≠ [] := by
    intro h0
    apply hpn
    have hl := congrArg List.length h0
    rw [hctlen] at hl
    simp only [List.length_nil] at hl
    exact List.length_eq_zero.mp hl
  have htgv : ValidBytes (gcmTag key iv (gcmMaskFrom key iv 0 plain)) :=
    gcmTag_valid key iv _ hkv hivv hctv
  have htgn : gcmTag key iv (gcmMaskFrom key iv 0 plain) ≠ [] := by
    intro h0
    have hl := congrArg List.length h0
    rw [gcmTag_length] at hl
    simp only [List.length_nil] at hl
    omega
  have hivn : iv ≠ [] := by
    intro h0
    rw [h0] at hivl
    simp at hivl
  rw [encryptJson_eq]
  have hre : (ENCRYPTION_VERSION ++ DOT :: (b64Encode iv
        ++ DOT :: (b64Encode (gcmTag key iv (gcmMaskFrom key iv 0 plain))
        ++ DOT :: b64Encode (gcmMaskFrom key iv 0 plain)))) ++ DOT :: s
      = ENCRYPTION_VERSION ++ DOT :: (b64Encode iv
        ++ DOT :: (b64Encode (gcmTag key iv (gcmMaskFrom key iv 0 plain))
        ++ DOT :: (b64Encode (gcmMaskFrom key iv 0 plain) ++ DOT :: s))) := by
    simp [List.append_assoc]
  rw [hre]
  rcases (by
    cases hs : splitOnDot s with
    | nil => exact absurd hs (splitOnDot_ne_nil s)
    | cons h t => exact ⟨h, t, rfl⟩ :
      ∃ h t, splitOnDot s = h :: t) with ⟨sh, st, hss⟩
  have hsplit : splitOnDot (ENCRYPTION_VERSION ++ DOT :: (b64Encode iv
      ++ DOT :: (b64Encode (gcmTag key iv (gcmMaskFrom key iv 0 plain))
      ++ DOT :: (b64Encode (gcmMaskFrom key iv 0 plain) ++ DOT :: s))))
      = ENCRYPTION_VERSION :: b64Encode iv
        :: b64Encode (gcmTag key iv (gcmMaskFrom key iv 0 plain))
        :: b64Encode (gcmMaskFrom key iv 0 plain) :: splitOnDot s := by
    rw [splitOnDot_append_dot _ _ (by decide),
      splitOnDot_append_dot _ _ (b64Encode_dotfree iv),
      splitOnDot_append_dot _ _ (b64Encode_dotfree _),
      splitOnDot_append_dot _ _ (b64Encode_dotfree _)]
  rw [hss] at hsplit
  rw [decryptJson_eq_of_split _ key _ _ _ _ _ hsplit]
  rw [if_pos ⟨rfl, b64Encode_ne_nil hivn, b64Encode_ne_nil htgn, b64Encode_ne_nil hctn⟩]
  rw [b64_roundtrip iv hivv, b64_roundtrip _ htgv, b64_roundtrip _ hctv]
  show gcmDecrypt key iv (gcmMaskFrom key iv 0 plain) (gcmTag key iv _) = some plain
  unfold gcmDecrypt
  rw [if_pos rfl, gcmUnmask_mask key iv 0 plain hpv]

set_option maxRecDepth 40000 in
/-- Witness for C10: the concrete token with an appended component still
decrypts to the payload. -/
theorem decrypt_ignores_extra_components_witness :
    decryptJson (encryptJson samplePlainBytes sampleKeyBytes sampleIvBytes
        ++ DOT :: [120, 121]) sampleKeyBytes = some samplePlainBytes :=
  decrypt_ignores_extra_components sampleKeyBytes sampleIvBytes samplePlainBytes
    [120, 121] (by decide) (by decide) (by decide) (by decide) (by decide)

end Theorems

end Crosspost
